import Mathlib

/-!
Shallow embedding of the dcontroller pipeline engine (pkg/pipeline) and its
auxiliary object/cache helpers, with theorems about the delta-propagation
behaviour, the join/aggregation evaluation, and result normalization.

The document model, the engine, the two `Normalize` variants and the error
wrappers are translated from the Go source.  Components whose implementation
is not part of the source tree (the expression evaluator, the `cache.Store`
and `cache.Delta` types, and the `object` package accessors) are modelled
from the specification; each such definition carries a doc comment starting
with `Modelled from the spec:`.
-/

-- Semi-structured document value: null, boolean, int64, string, ordered
-- sequence, or string-keyed mapping.  (Go `any` as used by the pipeline;
-- float64 is omitted: none of the properties below involves floats.)
mutual
inductive Value where
  | null
  | bool (b : Bool)
  | int (n : Int)
  | str (s : String)
  | list (xs : VList)
  | map (m : VMap)
  deriving DecidableEq

inductive VList where
  | nil
  | cons (v : Value) (t : VList)
  deriving DecidableEq

inductive VMap where
  | nil
  | cons (k : String) (v : Value) (t : VMap)
  deriving DecidableEq
end

deriving instance DecidableEq for Except

/-- Go `unstruct = map[string]any`. -/
abbrev Unstruct := VMap

def VMap.lookup : VMap → String → Option Value
  | .nil, _ => none
  | .cons k v t, key => if k = key then some v else t.lookup key

/-- Mapping update: replace the value under an existing key in place, append
the pair otherwise (Go map assignment; keys stay unique). -/
def VMap.setKey : VMap → String → Value → VMap
  | .nil, key, val => .cons key val .nil
  | .cons k v t, key, val =>
      if k = key then .cons k val t else .cons k v (t.setKey key val)

def VList.length : VList → Nat
  | .nil => 0
  | .cons _ t => t.length + 1

def VList.get? : VList → Nat → Option Value
  | .nil, _ => none
  | .cons v _, 0 => some v
  | .cons _ t, n + 1 => t.get? n

def VList.set : VList → Nat → Value → VList
  | .nil, _, _ => .nil
  | .cons _ t, 0, x => .cons x t
  | .cons v t, n + 1, x => .cons v (t.set n x)

def VList.append : VList → VList → VList
  | .nil, ys => ys
  | .cons v t, ys => .cons v (t.append ys)

def VList.ofList : List Value → VList
  | [] => .nil
  | v :: t => .cons v (ofList t)

theorem VMap.lookup_setKey_eq (m : VMap) (k : String) (v : Value) :
    (m.setKey k v).lookup k = some v :=
  match m with
  | .nil => by simp [VMap.setKey, VMap.lookup]
  | .cons k' v' t => by
      by_cases h : k' = k
      · simp [VMap.setKey, VMap.lookup, h]
      · simp [VMap.setKey, VMap.lookup, h, VMap.lookup_setKey_eq t k v]

theorem VMap.lookup_setKey_ne (m : VMap) (k k' : String) (v : Value) (h : k ≠ k') :
    (m.setKey k v).lookup k' = m.lookup k' :=
  match m with
  | .nil => by simp [VMap.setKey, VMap.lookup, h]
  | .cons k0 v0 t => by
      by_cases h0 : k0 = k
      · subst h0
        simp [VMap.setKey, VMap.lookup, h]
      · simp [VMap.setKey, VMap.lookup, h0, VMap.lookup_setKey_ne t k k' v h]

theorem VMap.setKey_self (m : VMap) (k : String) (v : Value) (h : m.lookup k = some v) :
    m.setKey k v = m :=
  match m with
  | .nil => by simp [VMap.lookup] at h
  | .cons k0 v0 t => by
      by_cases h0 : k0 = k
      · subst h0
        simp [VMap.lookup] at h
        simp [VMap.setKey, h]
      · simp [VMap.lookup, h0] at h
        simp [VMap.setKey, h0, VMap.setKey_self t k v h]

/-- `schema.GroupVersionKind`. -/
structure GVK where
  group : String
  version : String
  kind : String
  deriving DecidableEq

/-- Group/version that view objects are stamped with. -/
def viewGroup : String := "view.dcontroller.io"

def viewVersion : String := "v1alpha1"

def viewApiVersion : String := viewGroup ++ "/" ++ viewVersion

/-- `object.Object`: a client object carrying a GVK and unstructured content.
The name/namespace accessors read `metadata` inside the content, mirroring
`unstructured.Unstructured`. -/
structure Obj where
  gvk : GVK
  content : Unstruct
  deriving DecidableEq

/-- Modelled from the spec: metadata string accessor of an unstructured
object (`GetName`/`GetNamespace`); a missing or non-string field reads as the
empty string. -/
def Obj.getMeta (o : Obj) (field : String) : String :=
  match o.content.lookup "metadata" with
  | some (.map m) =>
      match m.lookup field with
      | some (.str s) => s
      | _ => ""
  | _ => ""

def Obj.GetName (o : Obj) : String := o.getMeta "name"

def Obj.GetNamespace (o : Obj) : String := o.getMeta "namespace"

/-- Modelled from the spec: metadata string setter (`SetName`/`SetNamespace`);
writes the field into the `metadata` mapping, creating it when missing. -/
def Obj.setMeta (o : Obj) (field val : String) : Obj :=
  let meta :=
    match o.content.lookup "metadata" with
    | some (.map m) => m
    | _ => .nil
  { o with content := o.content.setKey "metadata" (.map (meta.setKey field (.str val))) }

def Obj.SetName (o : Obj) (s : String) : Obj := o.setMeta "name" s

def Obj.SetNamespace (o : Obj) (s : String) : Obj := o.setMeta "namespace" s

/-- Modelled from the spec: `object.NewViewObject` creates an object in the
view group with the given kind and content holding the stamped
`apiVersion`/`kind`. -/
def NewViewObject (view : String) : Obj :=
  { gvk := ⟨viewGroup, viewVersion, view⟩
    content := .cons "apiVersion" (.str viewApiVersion) (.cons "kind" (.str view) .nil) }

/-- Modelled from the spec: `object.SetContent` replaces the object's content
and stamps `apiVersion`/`kind` from the object's own view identity. -/
def SetContent (o : Obj) (content : Unstruct) : Obj :=
  { o with
    content :=
      (content.setKey "apiVersion" (.str (o.gvk.group ++ "/" ++ o.gvk.version))).setKey
        "kind" (.str o.gvk.kind) }

/-- `object.DeepEqual`: structural deep equality. -/
def DeepEqual (a b : Obj) : Bool := a = b

/-- `object.DeepCopy`: the model is pure, so a deep copy is the value itself. -/
def DeepCopy (o : Obj) : Obj := o

/-- `ObjectKey = toolscache.MetaObjectToName`, rendered as the
`namespace/name` identity-key string used by the stores. -/
def objectKey (o : Obj) : String := o.GetNamespace ++ "/" ++ o.GetName

/-- `types.NamespacedName`: the pair compared by `ObjectKey(x) == ObjectKey(y)`. -/
def nsName (o : Obj) : String × String := (o.GetNamespace, o.GetName)

/-- Errors are values with a wrapped cause; the model keeps the rendered
message only. -/
abbrev Err := String

/-- `NewAggregationError` (pkg/pipeline/error.go). -/
def NewAggregationError (e : Err) : Err := "failed to evaluate aggregation expression: " ++ e

/-- `NewJoinError` (pkg/pipeline/error.go). -/
def NewJoinError (e : Err) : Err := "failed to evaluate join expression: " ++ e

/-- `NewInvalidObjectError` (pkg/pipeline/error.go). -/
def NewInvalidObjectError (m : String) : Err := "invalid object: " ++ m

/-- Modelled from the spec: `expression.NewExpressionError` wraps an
expression-category error. -/
def NewExpressionError (e : Err) : Err := "expression error: " ++ e

/-- Modelled from the spec: `cache.DeltaType`. -/
inductive DeltaType where
  | Added
  | Replaced
  | Updated
  | Deleted
  | Upserted
  | Unchanged
  deriving DecidableEq

/-- Modelled from the spec: `cache.Delta`, a typed change event carrying one
(possibly absent) object. -/
structure Delta where
  type : DeltaType
  object : Option Obj
  deriving DecidableEq

/-- Modelled from the spec: `Unchanged` carries no work; `NilDelta` is the
unchanged sentinel the engine consolidates against. -/
def Delta.IsUnchanged (d : Delta) : Bool := d.type = .Unchanged

def NilDelta : Delta := ⟨.Unchanged, none⟩

/-- Modelled from the spec: `cache.Store`, a mapping from identity-key string
(`namespace/name`) to Object. -/
structure Store where
  items : List (String × Obj)
  deriving DecidableEq

def NewStore : Store := ⟨[]⟩

def itemsAdd : List (String × Obj) → String → Obj → List (String × Obj)
  | [], k, o => [(k, o)]
  | p :: t, k, o => if p.1 = k then (k, o) :: t else p :: itemsAdd t k o

def itemsGet : List (String × Obj) → String → Option Obj
  | [], _ => none
  | p :: t, k => if p.1 = k then some p.2 else itemsGet t k

def itemsDel : List (String × Obj) → String → List (String × Obj)
  | [], _ => []
  | p :: t, k => if p.1 = k then itemsDel t k else p :: itemsDel t k

/-- Modelled from the spec: `add` replaces any existing entry under the same
key. -/
def Store.Add (s : Store) (o : Obj) : Store :=
  ⟨itemsAdd s.items (objectKey o) o⟩

/-- Modelled from the spec: `delete(obj)` is a no-op if absent. -/
def Store.Delete (s : Store) (o : Obj) : Store :=
  ⟨itemsDel s.items (objectKey o)⟩

def Store.GetByKey (s : Store) (key : String) : Option Obj :=
  itemsGet s.items key

/-- `Get(obj)` looks the object up under its own identity key. -/
def Store.Get (s : Store) (o : Obj) : Option Obj := s.GetByKey (objectKey o)

/-- Modelled from the spec: `list()` yields a snapshot of the stored objects
(kept in insertion order here; the spec leaves the order open). -/
def Store.List (s : Store) : List Obj := s.items.map (·.2)

/-- `defaultEngine`: target view name, expected source kinds, and the
per-kind view stores. -/
structure Engine where
  targetView : String
  baseviews : List GVK
  baseViewStore : List (GVK × Store)
  deriving DecidableEq

def NewDefaultEngine (targetView : String) (baseviews : List GVK) : Engine :=
  ⟨targetView, baseviews, []⟩

def bvsGet : List (GVK × Store) → GVK → Option Store
  | [], _ => none
  | p :: t, g => if p.1 = g then some p.2 else bvsGet t g

def bvsSet : List (GVK × Store) → GVK → Store → List (GVK × Store)
  | [], g, s => [(g, s)]
  | p :: t, g, s => if p.1 = g then (g, s) :: t else p :: bvsSet t g s

def Engine.getStore (eng : Engine) (g : GVK) : Option Store :=
  bvsGet eng.baseViewStore g

def Engine.setStore (eng : Engine) (g : GVK) (s : Store) : Engine :=
  { eng with baseViewStore := bvsSet eng.baseViewStore g s }

/-- `initViewStore`: allocate an empty store for the kind unless one exists. -/
def Engine.initViewStore (eng : Engine) (g : GVK) : Engine :=
  match eng.getStore g with
  | some _ => eng
  | none => eng.setStore g NewStore

/-- Object stored under kind `g` and identity key `k` (none when the store
bucket is missing or the key is absent). -/
def Engine.lookupObj (eng : Engine) (g : GVK) (k : String) : Option Obj :=
  match eng.getStore g with
  | some s => s.GetByKey k
  | none => none

def Engine.storeAdd (eng : Engine) (g : GVK) (o : Obj) : Engine :=
  let s := (eng.getStore g).getD NewStore
  eng.setStore g (s.Add o)

def Engine.storeDelete (eng : Engine) (g : GVK) (o : Obj) : Engine :=
  let s := (eng.getStore g).getD NewStore
  eng.setStore g (s.Delete o)

/-- `WithObjects`: seed the view stores. -/
def Engine.WithObjects (eng : Engine) (objs : List Obj) : Engine :=
  objs.foldl (fun e o => ((e.initViewStore o.gvk).storeAdd o.gvk o)) eng

/-- `IsValidEvent`, with the `initViewStore` side effect made explicit in the
returned engine.  Rejects events with no object; for
add/update/upsert/replace rejects when the object deep-equals the currently
stored version under the same key. -/
def Engine.isValidEventCore (eng : Engine) (delta : Delta) : Engine × Bool :=
  match delta.object with
  | none => (eng, false)
  | some o =>
      let eng := eng.initViewStore o.gvk
      if delta.type = .Added ∨ delta.type = .Updated ∨
          delta.type = .Upserted ∨ delta.type = .Replaced then
        match eng.lookupObj o.gvk (objectKey o) with
        | some stored => (eng, !(DeepEqual o stored))
        | none => (eng, true)
      else (eng, true)

def Engine.IsValidEvent (eng : Engine) (delta : Delta) : Bool :=
  (eng.isValidEventCore delta).2

/-- `handleUpsertEvent`: reclassify an upsert to Added/Updated against the
view store. -/
def Engine.handleUpsertEvent (eng : Engine) (delta : Delta) : Delta :=
  if delta.type ≠ .Upserted then delta
  else
    match delta.object with
    | none => delta
    | some o =>
        match eng.lookupObj o.gvk (objectKey o) with
        | some _ => ⟨.Updated, some o⟩
        | none => ⟨.Added, some o⟩

/-- `expression.Expression` as the engine inspects it: an operator tag and an
optional operand sub-expression (the literal payload is internal to the
evaluator and stays opaque here). -/
inductive Expr where
  | mk (op : String) (arg : Option Expr)

def Expr.op : Expr → String
  | .mk o _ => o

def Expr.arg : Expr → Option Expr
  | .mk _ a => a

/-- Modelled from the spec: the expression evaluator
(`Expression.Evaluate` over an evaluation context) is not part of the source
tree, so pipeline evaluation is parametrized by it: given an expression and
the context object's content, it produces a document value or an
expression error. -/
abbrev EvalFn := Expr → Unstruct → Except Err Value

/-- Modelled from the spec: `expression.AsBool` coerces an evaluation result
to a boolean and fails on non-boolean values. -/
def AsBool : Value → Except Err Bool
  | .bool b => .ok b
  | _ => .error "expected boolean value"

/-- Modelled from the spec: `expression.AsObject` expects a mapping result. -/
def AsObject : Value → Except Err Unstruct
  | .map m => .ok m
  | _ => .error "expected map value"

/-- `Normalize` as in the engine's revision (import path
`hsnlab/dcontroller`): name is checked before namespace, and
`SetName`/`SetNamespace` run before `SetContent`. -/
def NormalizeV5 (view : String) (content : Unstruct) : Except Err Obj :=
  let obj := NewViewObject view
  match content.lookup "metadata" with
  | none => .error (NewInvalidObjectError "no metadata in object")
  | some meta =>
      match meta with
      | .map metaMap =>
          match metaMap.lookup "name" with
          | none => .error (NewInvalidObjectError "missing /metadata/name")
          | some name =>
              match name with
              | .str nameStr =>
                  if nameStr = "" then
                    .error (NewInvalidObjectError "empty metadata/name in aggregation result")
                  else
                    let obj := obj.SetName nameStr
                    match metaMap.lookup "namespace" with
                    | none => .ok (SetContent (obj.SetNamespace "") content)
                    | some nspace =>
                        match nspace with
                        | .str namespaceStr =>
                            .ok (SetContent (obj.SetNamespace namespaceStr) content)
                        | _ => .error (NewInvalidObjectError "metadata/namespace must be a string")
              | _ => .error (NewInvalidObjectError "metadata/name must be a string")
      | _ => .error (NewInvalidObjectError "invalid metadata in object")

/-- `Normalize` in the later revision (import path
`github.com/hsnlab/dcontroller`): namespace is checked before name, the Go
code writes the checked strings back into the shared metadata map, and
`SetName`/`SetNamespace` run after `SetContent`. -/
def NormalizeV6 (view : String) (content : Unstruct) : Except Err Obj :=
  match content.lookup "metadata" with
  | none => .error (NewInvalidObjectError "no metadata in object")
  | some meta =>
      match meta with
      | .map metaMap =>
          let nsRes : Except Err (String × VMap) :=
            match metaMap.lookup "namespace" with
            | none => .ok ("", metaMap)
            | some nspace =>
                match nspace with
                | .str namespaceStr => .ok (namespaceStr, metaMap.setKey "namespace" (.str namespaceStr))
                | _ => .error (NewInvalidObjectError "metadata/namespace must be a string")
          match nsRes with
          | .error e => .error e
          | .ok (namespaceStr, metaMap1) =>
              match metaMap1.lookup "name" with
              | none => .error (NewInvalidObjectError "missing /metadata/name")
              | some name =>
                  match name with
                  | .str nameStr =>
                      if nameStr = "" then
                        .error (NewInvalidObjectError "empty metadata/name in aggregation result")
                      else
                        let metaMap2 := metaMap1.setKey "name" (.str nameStr)
                        let content2 := content.setKey "metadata" (.map metaMap2)
                        let obj := SetContent (NewViewObject view) content2
                        .ok ((obj.SetName nameStr).SetNamespace namespaceStr)
                  | _ => .error (NewInvalidObjectError "metadata/name must be a string")
      | _ => .error (NewInvalidObjectError "invalid metadata in object")

/-- `Aggregation` (pkg/pipeline/aggregation.go): the ordered stage
expressions. -/
structure Aggregation where
  Expressions : List Expr

/-- `Join` (pkg/pipeline): the join condition expression. -/
structure Join where
  Expression : Expr

/-- `evalStage`: one aggregation stage applied to one document.  `@select`
keeps or drops the document by the condition; `@project` replaces it with the
evaluated projector; any other stage tag is an aggregation error. -/
def evalStage (ev : EvalFn) (e : Expr) (u : Unstruct) : Except Err (List Unstruct) :=
  match e.arg with
  | none => .error (NewAggregationError "no expression found in aggregation stage")
  | some arg =>
      match e.op with
      | "@select" =>
          match ev arg u with
          | .error er => .error er
          | .ok res =>
              match AsBool res with
              | .error er =>
                  .error (NewAggregationError
                    ("expected conditional expression to evaluate to boolean: " ++ er))
              | .ok b => .ok (if b then [u] else [])
      | "@project" =>
          match ev arg u with
          | .error er => .error er
          | .ok res =>
              match AsObject res with
              | .error er => .error (NewAggregationError er)
              | .ok v => .ok [v]
      | _ => .error (NewAggregationError "unknown aggregation stage")

/-- One stage applied to the running document set, in order. -/
def evalStageAll (ev : EvalFn) (s : Expr) : List Unstruct → Except Err (List Unstruct)
  | [] => .ok []
  | u :: us =>
      match evalStage ev s u with
      | .error e => .error e
      | .ok r =>
          match evalStageAll ev s us with
          | .error e => .error e
          | .ok rs => .ok (r ++ rs)

/-- The stage chain folded left-to-right over the running document set. -/
def evalStagesFrom (ev : EvalFn) : List Expr → List Unstruct → Except Err (List Unstruct)
  | [], args => .ok args
  | s :: rest, args =>
      match evalStageAll ev s args with
      | .error e => .error e
      | .ok sres => evalStagesFrom ev rest sres

def normalizeAll (view : String) : List Unstruct → Except Err (List Obj)
  | [] => .ok []
  | u :: us =>
      match NormalizeV5 view u with
      | .error e => .error e
      | .ok o =>
          match normalizeAll view us with
          | .error e => .error e
          | .ok os => .ok (o :: os)

/-- `evalAggregation`: run the stage chain on the object's content, then
normalize every resulting document into the target view. -/
def Engine.evalAggregation (eng : Engine) (ev : EvalFn) (a : Aggregation) (o : Obj) :
    Except Err (List Obj) :=
  match evalStagesFrom ev a.Expressions [o.content] with
  | .error e => .error e
  | .ok args => normalizeAll eng.targetView args

/-- `ObjectKey(delta.Object)` for the update consolidation; deltas reaching
the comparison always carry an object. -/
def deltaNsName : Option Obj → String × String
  | some o => nsName o
  | none => ("", "")

/-- The `cache.Added` branch of `evaluateAggregation`: evaluate on the new
object first, add it to the store only afterwards. -/
def Engine.aggAdd (eng : Engine) (ev : EvalFn) (a : Aggregation) (o : Obj) :
    Engine × Except Err (List Delta) :=
  match eng.evalAggregation ev a (DeepCopy o) with
  | .error e => (eng, .error (NewAggregationError e))
  | .ok objs =>
      (eng.storeAdd o.gvk o, .ok (objs.map fun ob => ⟨.Added, some ob⟩))

/-- The `cache.Deleted` branch of `evaluateAggregation`: look up the
previously stored version, evaluate on it, delete it from the store only
afterwards; a delete for an unknown object is ignored. -/
def Engine.aggDelete (eng : Engine) (ev : EvalFn) (a : Aggregation) (o : Obj) :
    Engine × Except Err (List Delta) :=
  match eng.lookupObj o.gvk (objectKey o) with
  | none => (eng, .ok [])
  | some old =>
      match eng.evalAggregation ev a (DeepCopy old) with
      | .error e => (eng, .error (NewAggregationError e))
      | .ok objs =>
          (eng.storeDelete o.gvk old, .ok (objs.map fun ob => ⟨.Deleted, some ob⟩))

/-- The `cache.Updated`/`cache.Replaced` branch of `evaluateAggregation`:
replay as a Delete of the stored version followed by an Add of the new one,
then consolidate the two (at most singleton) results. -/
def Engine.aggUpdate (eng : Engine) (ev : EvalFn) (a : Aggregation) (o : Obj) :
    Engine × Except Err (List Delta) :=
  match eng.aggDelete ev a o with
  | (eng1, .error e) => (eng1, .error (NewAggregationError e))
  | (eng1, .ok delDeltas) =>
      let delDelta := match delDeltas with | [d] => d | _ => NilDelta
      match eng1.aggAdd ev a o with
      | (eng2, .error e) => (eng2, .error (NewAggregationError e))
      | (eng2, .ok addDeltas) =>
          let addDelta := match addDeltas with | [d] => d | _ => NilDelta
          if delDelta.IsUnchanged && addDelta.IsUnchanged then (eng2, .ok [])
          else if delDelta.IsUnchanged && !addDelta.IsUnchanged then (eng2, .ok [addDelta])
          else if !delDelta.IsUnchanged && addDelta.IsUnchanged then (eng2, .ok [delDelta])
          else if deltaNsName delDelta.object = deltaNsName addDelta.object then
            (eng2, .ok [⟨.Updated, addDelta.object⟩])
          else (eng2, .ok [delDelta, addDelta])

/-- `evaluateAggregation` (lower case): the per-type switch.  The Go
function's Update/Replace recursion into its own Delete and Add branches is
unfolded into `aggDelete`/`aggAdd`.  A nil object dereference is modelled as
an error. -/
def Engine.evaluateAggregation (eng : Engine) (ev : EvalFn) (a : Aggregation) (delta : Delta) :
    Engine × Except Err (List Delta) :=
  match delta.object with
  | none => (eng, .error "nil object dereference")
  | some o =>
      match delta.type with
      | .Added => eng.aggAdd ev a o
      | .Updated => eng.aggUpdate ev a o
      | .Replaced => eng.aggUpdate ev a o
      | .Deleted => eng.aggDelete ev a o
      | _ => (eng, .ok [])

/-- `EvaluateAggregation`: an Unchanged delta is passed through as a
singleton; otherwise initialize the store bucket, drop invalid/duplicate
events with an empty result, reclassify upserts, and run the switch. -/
def Engine.EvaluateAggregation (eng : Engine) (ev : EvalFn) (a : Aggregation) (delta : Delta) :
    Engine × Except Err (List Delta) :=
  if delta.IsUnchanged then (eng, .ok [delta])
  else
    match delta.object with
    | none => (eng, .error "nil object dereference")
    | some o =>
        let eng := eng.initViewStore o.gvk
        match eng.isValidEventCore delta with
        | (eng, false) => (eng, .ok [])
        | (eng, true) => eng.evaluateAggregation ev a (eng.handleUpsertEvent delta)

def insertSorted (s : String) : List String → List String
  | [] => [s]
  | x :: xs => if s ≤ x then s :: x :: xs else x :: insertSorted s xs

/-- `slices.Sort` on the id tokens (lexicographic). -/
def sortStrings : List String → List String
  | [] => []
  | x :: xs => insertSorted x (sortStrings xs)

/-- The synthetic join input document: one slot per non-nil combination
member keyed by its kind, plus `metadata.name` holding the sorted
`kind:namespace:name` tokens joined by `--`. -/
def joinBuildInput (current : List (Option Obj)) : Unstruct :=
  let start := ((NewViewObject "__tmp_join_view").content, ([] : List String))
  let acc := current.foldl
    (fun (p : Unstruct × List String) v =>
      match v with
      | none => p
      | some o =>
          (p.1.setKey o.gvk.kind (.map o.content),
           p.2 ++ [o.gvk.kind ++ ":" ++ o.GetNamespace ++ ":" ++ o.GetName]))
    start
  acc.1.setKey "metadata" (.map (.cons "name" (.str (String.intercalate "--" (sortStrings acc.2))) .nil))

/-- The evaluation closure inside `evalJoin`: build the synthetic input,
evaluate the join condition on it, and return the combined object when the
condition is truthy; evaluation and coercion failures are returned as
expression errors. -/
def joinEvalFn (ev : EvalFn) (j : Join) (current : List (Option Obj)) :
    Except Err (Option Obj) :=
  let input := joinBuildInput current
  match ev j.Expression input with
  | .error e => .error (NewExpressionError e)
  | .ok res =>
      match AsBool res with
      | .error e => .error (NewExpressionError e)
      | .ok arg =>
          if !arg then .ok none
          else .ok (some (DeepCopy (SetContent (NewViewObject "__tmp_join_view") input)))

/-- The slot candidates `recurseProd` tries at one depth: the incoming
object's own view contributes the object itself, a view with no store bucket
contributes `nil`, and otherwise every stored object of the view is tried in
turn. -/
def Engine.slotsFor (eng : Engine) (obj : Obj) (g : GVK) : List (Option Obj) :=
  if obj.gvk = g then [some obj]
  else
    match eng.getStore g with
    | none => [none]
    | some store => store.List.map some

/-- The combinations `recurseProd` visits, in its depth-first order. -/
def Engine.combos (eng : Engine) (obj : Obj) : List GVK → List (List (Option Obj))
  | [] => [[]]
  | g :: rest =>
      let cs := eng.combos obj rest
      (eng.slotsFor obj g).flatMap fun s => cs.map fun c => s :: c

/-- The evaluation loop of `recurseProd` over the visited combinations: the
condition is evaluated on each combination in order, matches are collected
in order, and the first evaluation error aborts the recursion. -/
def evalCombos (ev : EvalFn) (j : Join) (current : List (Option Obj)) :
    List (List (Option Obj)) → Except Err (List Obj)
  | [] => .ok []
  | c :: cs =>
      match joinEvalFn ev j (current ++ c) with
      | .error e => .error e
      | .ok none => evalCombos ev j current cs
      | .ok (some o) =>
          match evalCombos ev j current cs with
          | .error e => .error e
          | .ok r => .ok (o :: r)

/-- `recurseProd`: depth-first Cartesian product over the base views.  The
source recursion interleaves enumeration and evaluation; this formulation
materializes the same combinations in the same depth-first order and
evaluates them in that order, so outputs, first error and final result
coincide with the source's recursion. -/
def Engine.recurseProd (eng : Engine) (ev : EvalFn) (j : Join) (obj : Obj)
    (current : List (Option Obj)) (gvks : List GVK) : Except Err (List Obj) :=
  evalCombos ev j current (eng.combos obj gvks)

/-- `product`: at least two views are required; then run the recursion from
an empty combination. -/
def Engine.product (eng : Engine) (ev : EvalFn) (j : Join) (obj : Obj) :
    Except Err (List Obj) :=
  if eng.baseviews.length < 2 then .error "at least two views required"
  else eng.recurseProd ev j obj [] eng.baseviews

/-- `evalJoin`: the product with errors wrapped as expression errors. -/
def Engine.evalJoin (eng : Engine) (ev : EvalFn) (j : Join) (obj : Obj) :
    Except Err (List Obj) :=
  match eng.product ev j obj with
  | .error e => .error (NewExpressionError e)
  | .ok res => .ok res

/-- `containsDelta`: membership by group-version-kind and name. -/
def containsDelta (ds : List Delta) (delta : Delta) : Bool :=
  ds.any fun n =>
    match delta.object, n.object with
    | some o1, some o2 => o1.gvk = o2.gvk ∧ o1.GetName = o2.GetName
    | _, _ => false

/-- `diffDeltas`: split the delete-half and add-half results into
(added, modified, deleted). -/
def diffDeltas (dels adds : List Delta) : List Delta × List Delta × List Delta :=
  let d := (dels.filter fun delta => !containsDelta adds delta).map
    fun delta => (⟨.Deleted, delta.object⟩ : Delta)
  let m := (adds.filter fun delta => containsDelta dels delta).map
    fun delta => (⟨.Updated, delta.object⟩ : Delta)
  let a := (adds.filter fun delta => !containsDelta dels delta).map
    fun delta => (⟨.Added, delta.object⟩ : Delta)
  (a, m, d)

/-- The `cache.Added` branch of `evaluateJoin`. -/
def Engine.joinAdd (eng : Engine) (ev : EvalFn) (j : Join) (o : Obj) :
    Engine × Except Err (List Delta) :=
  match eng.evalJoin ev j o with
  | .error e => (eng, .error (NewJoinError e))
  | .ok os => (eng.storeAdd o.gvk o, .ok (os.map fun ob => ⟨.Added, some ob⟩))

/-- The `cache.Deleted` branch of `evaluateJoin`. -/
def Engine.joinDelete (eng : Engine) (ev : EvalFn) (j : Join) (o : Obj) :
    Engine × Except Err (List Delta) :=
  match eng.lookupObj o.gvk (objectKey o) with
  | none => (eng, .ok [])
  | some old =>
      match eng.evalJoin ev j old with
      | .error e => (eng, .error (NewJoinError e))
      | .ok os => (eng.storeDelete o.gvk old, .ok (os.map fun ob => ⟨.Deleted, some ob⟩))

/-- One non-recursive pass of `evaluateJoin` (prologue plus the Add/Delete
branches); the Update/Replace recursion of the Go function enters this pass
with its synthesized Deleted and Added deltas. -/
def Engine.evaluateJoinSub (eng : Engine) (ev : EvalFn) (j : Join) (delta : Delta) :
    Engine × Except Err (List Delta) :=
  match delta.object with
  | none => (eng, .error "nil object dereference")
  | some o =>
      let eng := eng.initViewStore o.gvk
      match eng.isValidEventCore delta with
      | (eng, false) => (eng, .ok [])
      | (eng, true) =>
          let delta := eng.handleUpsertEvent delta
          match delta.type with
          | .Added => eng.joinAdd ev j o
          | .Deleted => eng.joinDelete ev j o
          | _ => (eng, .ok [])

/-- `evaluateJoin` (lower case): prologue, then the per-type switch; the
Update/Replace branch replays a Delete of the stored version and an Add of
the new one through full passes and consolidates them with `diffDeltas` in
the order deletes, updates, adds. -/
def Engine.evaluateJoin (eng : Engine) (ev : EvalFn) (j : Join) (delta : Delta) :
    Engine × Except Err (List Delta) :=
  match delta.object with
  | none => (eng, .error "nil object dereference")
  | some o =>
      let eng := eng.initViewStore o.gvk
      match eng.isValidEventCore delta with
      | (eng, false) => (eng, .ok [])
      | (eng, true) =>
          let delta := eng.handleUpsertEvent delta
          match delta.type with
          | .Added => eng.joinAdd ev j o
          | .Updated | .Replaced =>
              match eng.evaluateJoinSub ev j ⟨.Deleted, some o⟩ with
              | (eng1, .error e) => (eng1, .error (NewJoinError e))
              | (eng1, .ok delDeltas) =>
                  match eng1.evaluateJoinSub ev j ⟨.Added, some o⟩ with
                  | (eng2, .error e) => (eng2, .error (NewJoinError e))
                  | (eng2, .ok addDeltas) =>
                      let (a, m, d) := diffDeltas delDeltas addDeltas
                      (eng2, .ok (d ++ m ++ a))
          | .Deleted => eng.joinDelete ev j o
          | _ => (eng, .ok [])

/-- `EvaluateJoin`: the public wrapper returns the result unchanged. -/
def Engine.EvaluateJoin (eng : Engine) (ev : EvalFn) (j : Join) (delta : Delta) :
    Engine × Except Err (List Delta) :=
  eng.evaluateJoin ev j delta

/-- Modelled from the spec: one JSONPath step (`.field`, `["field"]` or
`[index]`). -/
inductive PStep where
  | field (name : String)
  | index (i : Nat)
  deriving DecidableEq

def readFieldChars : List Char → String × List Char
  | [] => ("", [])
  | c :: cs =>
      if c = '.' ∨ c = '[' then ("", c :: cs)
      else
        let (s, r) := readFieldChars cs
        (String.mk (c :: s.data), r)

def readDigits : List Char → String × List Char
  | [] => ("", [])
  | c :: cs =>
      if c.isDigit then
        let (s, r) := readDigits cs
        (String.mk (c :: s.data), r)
      else ("", c :: cs)

def readQuoted : List Char → Option (String × List Char)
  | [] => none
  | c :: cs =>
      if c = '"' then some ("", cs)
      else
        match readQuoted cs with
        | some (s, r) => some (String.mk (c :: s.data), r)
        | none => none

def digitsToNat (s : String) : Nat :=
  s.data.foldl (fun acc c => acc * 10 + (c.toNat - 48)) 0

/-- Modelled from the spec: JSONPath step parsing after the leading `$`;
supports `.field`, `[index]` and `["field"]` steps, and a trailing dot as
equivalent to the root. -/
def parseStepsAux : Nat → List Char → Option (List PStep)
  | 0, _ => none
  | _ + 1, [] => some []
  | fuel + 1, '.' :: cs =>
      match cs with
      | [] => some []
      | _ =>
          let (f, r) := readFieldChars cs
          if f = "" then none
          else
            match parseStepsAux fuel r with
            | some steps => some (.field f :: steps)
            | none => none
  | fuel + 1, '[' :: cs =>
      (match cs with
       | '"' :: cs' =>
           match readQuoted cs' with
           | some (f, ']' :: r) =>
               match parseStepsAux fuel r with
               | some steps => some (.field f :: steps)
               | none => none
           | _ => none
       | _ =>
           let (ds, r) := readDigits cs
           if ds = "" then none
           else
             match r with
             | ']' :: r' =>
                 match parseStepsAux fuel r' with
                 | some steps => some (.index (digitsToNat ds) :: steps)
                 | none => none
             | _ => none)
  | _ + 1, _ => none

/-- Modelled from the spec: parse a JSONPath (`$` followed by steps). -/
def parsePath (s : String) : Option (List PStep) :=
  match s.data with
  | '$' :: rest => parseStepsAux (rest.length + 1) rest
  | _ => none

/-- Pad a sequence with nulls so that the given index exists. -/
def VList.padIdx : VList → Nat → VList
  | .nil, 0 => .cons .null .nil
  | .nil, n + 1 => .cons .null (VList.padIdx .nil n)
  | .cons v t, 0 => .cons v t
  | .cons v t, n + 1 => .cons v (t.padIdx n)

/-- Modelled from the spec: JSONPath rvalue resolution; missing paths
resolve to null. -/
def getPath (cur : Value) : List PStep → Value
  | [] => cur
  | .field f :: rest =>
      match cur with
      | .map m => getPath ((m.lookup f).getD .null) rest
      | _ => .null
  | .index i :: rest =>
      match cur with
      | .list xs => getPath ((xs.get? i).getD .null) rest
      | _ => .null

/-- Modelled from the spec: JSONPath lvalue write; the path constructs
missing intermediate mappings, and numeric steps in lvalue position create
lists padded with null. -/
def setPath (cur : Value) (steps : List PStep) (v : Value) : Value :=
  match steps with
  | [] => v
  | .field f :: rest =>
      let m := match cur with | .map m => m | _ => VMap.nil
      let child := (m.lookup f).getD .null
      .map (m.setKey f (setPath child rest v))
  | .index i :: rest =>
      let xs := match cur with | .list xs => xs | _ => VList.nil
      let xs := xs.padIdx i
      let child := (xs.get? i).getD .null
      .list (xs.set i (setPath child rest v))

/-- A string is path-like when it starts with the `$` character. -/
def startsWithDollar (s : String) : Bool :=
  match s.data with
  | '$' :: _ => true
  | _ => false

-- Modelled from the spec: the fragment of the canonical expression form
-- (§4.1) needed to evaluate dict literals with JSONPath setter keys: scalar
-- int/string literals (a string starting with `$` resolves as a path at
-- evaluation time) and dict literals whose keys may be JSONPath setters.
-- The full `Expression.Evaluate` implementation is not part of the source
-- tree; only its tests are.
mutual
inductive SExpr where
  | intLit (n : Int)
  | strLit (s : String)
  | dict (entries : SEntries)

inductive SEntries where
  | nil
  | cons (k : String) (e : SExpr) (t : SEntries)
end

mutual
/-- Modelled from the spec: `Expression.Evaluate` on the fragment above; a
dict literal evaluates each entry in order into a fresh mapping, with
JSONPath keys written through the lvalue setter (later writes overlay
earlier ones). -/
def SExpr.Evaluate (ctx : Unstruct) : SExpr → Except Err Value
  | .intLit n => .ok (.int n)
  | .strLit s =>
      if startsWithDollar s then
        match parsePath s with
        | some steps => .ok (getPath (.map ctx) steps)
        | none => .error (NewExpressionError "invalid JSONPath")
      else .ok (.str s)
  | .dict entries =>
      match SEntries.evalInto ctx entries VMap.nil with
      | .error e => .error e
      | .ok m => .ok (.map m)

def SEntries.evalInto (ctx : Unstruct) : SEntries → VMap → Except Err VMap
  | .nil, acc => .ok acc
  | .cons k e t, acc =>
      match SExpr.Evaluate ctx e with
      | .error er => .error er
      | .ok v =>
          if startsWithDollar k then
            match parsePath k with
            | some steps =>
                match setPath (.map acc) steps v with
                | .map m => SEntries.evalInto ctx t m
                | _ => .error (NewExpressionError "root write must be a mapping")
            | none => .error (NewExpressionError "invalid JSONPath key")
          else SEntries.evalInto ctx t (acc.setKey k v)
end

def isError {α : Type} : Except Err α → Bool
  | .error _ => true
  | .ok _ => false

theorem bvsGet_bvsSet_eq (l : List (GVK × Store)) (g : GVK) (s : Store) :
    bvsGet (bvsSet l g s) g = some s := by
  induction l with
  | nil => simp [bvsGet, bvsSet]
  | cons p t ih =>
      by_cases h : p.1 = g
      · simp [bvsGet, bvsSet, h]
      · simp [bvsGet, bvsSet, h, ih]

theorem bvsGet_bvsSet_ne (l : List (GVK × Store)) (g g' : GVK) (s : Store) (h : g ≠ g') :
    bvsGet (bvsSet l g s) g' = bvsGet l g' := by
  induction l with
  | nil => simp [bvsGet, bvsSet, h]
  | cons p t ih =>
      by_cases h0 : p.1 = g
      · subst h0
        simp [bvsGet, bvsSet, h]
      · simp [bvsGet, bvsSet, h0, ih]

theorem Engine.getStore_setStore_eq (eng : Engine) (g : GVK) (s : Store) :
    (eng.setStore g s).getStore g = some s := by
  simp [Engine.getStore, Engine.setStore, bvsGet_bvsSet_eq]

theorem Engine.getStore_setStore_ne (eng : Engine) (g g' : GVK) (s : Store) (h : g ≠ g') :
    (eng.setStore g s).getStore g' = eng.getStore g' := by
  simp [Engine.getStore, Engine.setStore, bvsGet_bvsSet_ne _ _ _ _ h]

theorem Engine.getStore_init_self (eng : Engine) (g : GVK) :
    (eng.initViewStore g).getStore g = some ((eng.getStore g).getD NewStore) := by
  unfold Engine.initViewStore
  match h : eng.getStore g with
  | some s => simp [h]
  | none => simp [h, Engine.getStore_setStore_eq]

theorem Engine.getStore_init_ne (eng : Engine) (g g' : GVK) (h : g ≠ g') :
    (eng.initViewStore g).getStore g' = eng.getStore g' := by
  unfold Engine.initViewStore
  match h0 : eng.getStore g with
  | some s => simp
  | none => simp [Engine.getStore_setStore_ne _ _ _ _ h]

theorem Engine.lookupObj_init (eng : Engine) (g g' : GVK) (k : String) :
    (eng.initViewStore g).lookupObj g' k = eng.lookupObj g' k := by
  by_cases h : g' = g
  · subst h
    unfold Engine.lookupObj
    rw [Engine.getStore_init_self]
    match h0 : eng.getStore g' with
    | some s => simp [h0]
    | none => simp [h0, NewStore, Store.GetByKey, itemsGet]
  · unfold Engine.lookupObj
    rw [Engine.getStore_init_ne _ _ _ (fun he => h he.symm)]

theorem Engine.initViewStore_of_some (eng : Engine) (g : GVK) (s : Store)
    (h : eng.getStore g = some s) : eng.initViewStore g = eng := by
  unfold Engine.initViewStore
  rw [h]

theorem Engine.initViewStore_idem (eng : Engine) (g : GVK) :
    (eng.initViewStore g).initViewStore g = eng.initViewStore g :=
  Engine.initViewStore_of_some _ _ _ (Engine.getStore_init_self eng g)

theorem Engine.initViewStore_targetView (eng : Engine) (g : GVK) :
    (eng.initViewStore g).targetView = eng.targetView := by
  unfold Engine.initViewStore
  match eng.getStore g with
  | some s => rfl
  | none => rfl

theorem Engine.initViewStore_baseviews (eng : Engine) (g : GVK) :
    (eng.initViewStore g).baseviews = eng.baseviews := by
  unfold Engine.initViewStore
  match eng.getStore g with
  | some s => rfl
  | none => rfl

theorem Engine.isValidEventCore_dup (eng : Engine) (dt : DeltaType) (o stored : Obj)
    (hty : dt = .Added ∨ dt = .Updated ∨ dt = .Upserted ∨ dt = .Replaced)
    (hst : eng.lookupObj o.gvk (objectKey o) = some stored)
    (heq : DeepEqual o stored = true) :
    eng.isValidEventCore ⟨dt, some o⟩ = (eng.initViewStore o.gvk, false) := by
  unfold Engine.isValidEventCore
  simp only
  rw [if_pos hty, Engine.lookupObj_init, hst]
  simp [heq]

-- Concrete fixtures shared by the witnesses below.
def gA : GVK := ⟨viewGroup, viewVersion, "A"⟩

def gB : GVK := ⟨viewGroup, viewVersion, "B"⟩

def mmNsX : VMap := .cons "namespace" (.str "ns") (.cons "name" (.str "x") .nil)

def objA : Obj := ⟨gA, .cons "metadata" (.map mmNsX) (.cons "a" (.int 1) .nil)⟩

def objA2 : Obj := ⟨gA, .cons "metadata" (.map mmNsX) .nil⟩

def engA : Engine := (NewDefaultEngine "view" [gA, gB]).WithObjects [objA]

def evTrue : EvalFn := fun _ _ => .ok (.bool true)

def agEmpty : Aggregation := ⟨[]⟩

/-- C3: for every Added/Updated/Upserted/Replaced delta whose object is
deep-equal to the version currently stored under the same key,
`IsValidEvent` returns false and evaluating the delta returns an empty delta
set with no error; `IsValidEvent` also returns false for every delta
carrying no object. -/
theorem C3_duplicate_and_nil_events :
    (∀ (eng : Engine) (ev : EvalFn) (a : Aggregation) (dt : DeltaType) (o stored : Obj),
      (dt = .Added ∨ dt = .Updated ∨ dt = .Upserted ∨ dt = .Replaced) →
      eng.lookupObj o.gvk (objectKey o) = some stored →
      DeepEqual o stored = true →
      eng.IsValidEvent ⟨dt, some o⟩ = false ∧
        (eng.EvaluateAggregation ev a ⟨dt, some o⟩).2 = .ok []) ∧
    (∀ (eng : Engine) (delta : Delta), delta.object = none →
      eng.IsValidEvent delta = false) := by
  constructor
  · intro eng ev a dt o stored hty hst heq
    have hcore := Engine.isValidEventCore_dup eng dt o stored hty hst heq
    have hunch : (⟨dt, some o⟩ : Delta).IsUnchanged = false := by
      rcases hty with h | h | h | h <;> subst h <;> rfl
    refine ⟨?_, ?_⟩
    · unfold Engine.IsValidEvent
      rw [hcore]
    · have hst1 : (eng.initViewStore o.gvk).lookupObj o.gvk (objectKey o) = some stored := by
        rw [Engine.lookupObj_init]; exact hst
      have hcore1 := Engine.isValidEventCore_dup (eng.initViewStore o.gvk) dt o stored hty hst1 heq
      rw [Engine.initViewStore_idem] at hcore1
      unfold Engine.EvaluateAggregation
      rw [hunch]
      simp only [Bool.false_eq_true, if_false, hcore1]
  · intro eng delta h
    obtain ⟨dt, dobj⟩ := delta
    simp only at h
    subst h
    rfl

/-- Closed instance of `C3_duplicate_and_nil_events`. -/
theorem C3_witness :
    engA.IsValidEvent ⟨.Updated, some objA⟩ = false ∧
      (engA.EvaluateAggregation evTrue agEmpty ⟨.Updated, some objA⟩).2 = .ok [] :=
  C3_duplicate_and_nil_events.1 engA evTrue agEmpty .Updated objA objA
    (Or.inr (Or.inl rfl)) (by decide) (by decide)

theorem Engine.isValidEventCore_absent (eng : Engine) (dt : DeltaType) (o : Obj)
    (hst : eng.lookupObj o.gvk (objectKey o) = none) :
    eng.isValidEventCore ⟨dt, some o⟩ = (eng.initViewStore o.gvk, true) := by
  unfold Engine.isValidEventCore
  simp only
  by_cases hty : dt = .Added ∨ dt = .Updated ∨ dt = .Upserted ∨ dt = .Replaced
  · rw [if_pos hty, Engine.lookupObj_init, hst]
  · rw [if_neg hty]

theorem Engine.isValidEventCore_other (eng : Engine) (dt : DeltaType) (o : Obj)
    (hty : ¬(dt = .Added ∨ dt = .Updated ∨ dt = .Upserted ∨ dt = .Replaced)) :
    eng.isValidEventCore ⟨dt, some o⟩ = (eng.initViewStore o.gvk, true) := by
  unfold Engine.isValidEventCore
  simp only
  rw [if_neg hty]

theorem Engine.handleUpsert_nonUpsert (eng : Engine) (dt : DeltaType) (obj : Option Obj)
    (hty : dt ≠ .Upserted) :
    eng.handleUpsertEvent ⟨dt, obj⟩ = ⟨dt, obj⟩ := by
  unfold Engine.handleUpsertEvent
  simp [hty]

theorem Engine.handleUpsert_absent (eng : Engine) (o : Obj)
    (hst : eng.lookupObj o.gvk (objectKey o) = none) :
    eng.handleUpsertEvent ⟨.Upserted, some o⟩ = ⟨.Added, some o⟩ := by
  unfold Engine.handleUpsertEvent
  simp [hst]

theorem Engine.handleUpsert_present (eng : Engine) (o stored : Obj)
    (hst : eng.lookupObj o.gvk (objectKey o) = some stored) :
    eng.handleUpsertEvent ⟨.Upserted, some o⟩ = ⟨.Updated, some o⟩ := by
  unfold Engine.handleUpsertEvent
  simp [hst]

theorem Engine.EvaluateAggregation_dup (eng : Engine) (ev : EvalFn) (a : Aggregation)
    (dt : DeltaType) (o stored : Obj)
    (hty : dt = .Added ∨ dt = .Updated ∨ dt = .Upserted ∨ dt = .Replaced)
    (hst : eng.lookupObj o.gvk (objectKey o) = some stored)
    (heq : DeepEqual o stored = true) :
    eng.EvaluateAggregation ev a ⟨dt, some o⟩ = (eng.initViewStore o.gvk, .ok []) := by
  have hunch : (⟨dt, some o⟩ : Delta).IsUnchanged = false := by
    rcases hty with h | h | h | h <;> subst h <;> rfl
  have hst1 : (eng.initViewStore o.gvk).lookupObj o.gvk (objectKey o) = some stored := by
    rw [Engine.lookupObj_init]; exact hst
  have hcore1 := Engine.isValidEventCore_dup (eng.initViewStore o.gvk) dt o stored hty hst1 heq
  rw [Engine.initViewStore_idem] at hcore1
  unfold Engine.EvaluateAggregation
  rw [hunch]
  simp only [Bool.false_eq_true, if_false, hcore1]

/-- C4: for an Upserted delta whose object is absent from the store,
aggregation evaluation produces the same outputs (and the same final state)
as the same object fed as an Added delta; if the object is present and
deep-equal to the stored version, the output is empty. -/
theorem C4_upsert_classification :
    ∀ (eng : Engine) (ev : EvalFn) (a : Aggregation) (o : Obj),
      (eng.lookupObj o.gvk (objectKey o) = none →
        eng.EvaluateAggregation ev a ⟨.Upserted, some o⟩ =
          eng.EvaluateAggregation ev a ⟨.Added, some o⟩) ∧
      (∀ stored, eng.lookupObj o.gvk (objectKey o) = some stored →
        DeepEqual o stored = true →
        (eng.EvaluateAggregation ev a ⟨.Upserted, some o⟩).2 = .ok []) := by
  intro eng ev a o
  constructor
  · intro hst
    have hst1 : (eng.initViewStore o.gvk).lookupObj o.gvk (objectKey o) = none := by
      rw [Engine.lookupObj_init]; exact hst
    have hcoreU := Engine.isValidEventCore_absent (eng.initViewStore o.gvk) .Upserted o hst1
    have hcoreA := Engine.isValidEventCore_absent (eng.initViewStore o.gvk) .Added o hst1
    rw [Engine.initViewStore_idem] at hcoreU hcoreA
    unfold Engine.EvaluateAggregation
    simp only [Delta.IsUnchanged]
    rw [hcoreU, hcoreA]
    simp only
    rw [Engine.handleUpsert_absent _ _ hst1,
      Engine.handleUpsert_nonUpsert _ _ _ (by simp)]
    rfl
  · intro stored hst heq
    rw [Engine.EvaluateAggregation_dup eng ev a .Upserted o stored
      (Or.inr (Or.inr (Or.inl rfl))) hst heq]

/-- Closed instance of `C4_upsert_classification`. -/
theorem C4_witness :
    ((NewDefaultEngine "view" [gA, gB]).EvaluateAggregation evTrue agEmpty
        ⟨.Upserted, some objA⟩ =
      (NewDefaultEngine "view" [gA, gB]).EvaluateAggregation evTrue agEmpty
        ⟨.Added, some objA⟩) ∧
      (engA.EvaluateAggregation evTrue agEmpty ⟨.Upserted, some objA⟩).2 = .ok [] :=
  ⟨(C4_upsert_classification (NewDefaultEngine "view" [gA, gB]) evTrue agEmpty objA).1
      (by decide),
   (C4_upsert_classification engA evTrue agEmpty objA).2 objA (by decide) (by decide)⟩

/-- C7 (counterexample): an Unchanged input delta does not produce an empty
delta set from aggregation evaluation: the delta itself is passed through as
a singleton. -/
theorem C7_counterexample :
    (engA.EvaluateAggregation evTrue agEmpty ⟨.Unchanged, some objA⟩).2 =
      .ok [⟨.Unchanged, some objA⟩] ∧
      (engA.EvaluateAggregation evTrue agEmpty ⟨.Unchanged, some objA⟩).2 ≠
        .ok ([] : List Delta) := by
  have h : (engA.EvaluateAggregation evTrue agEmpty ⟨.Unchanged, some objA⟩).2 =
      .ok [⟨.Unchanged, some objA⟩] := rfl
  exact ⟨h, by rw [h]; simp⟩

/-- C7 (amended): for an Unchanged input delta, aggregation evaluation passes
the delta through unchanged as a singleton result with no error and no state
change, while join evaluation returns an empty delta set with no error. -/
theorem C7_amended :
    ∀ (eng : Engine) (ev : EvalFn) (a : Aggregation) (j : Join) (delta : Delta),
      delta.IsUnchanged = true →
      eng.EvaluateAggregation ev a delta = (eng, .ok [delta]) ∧
        (∀ o, delta.object = some o → (eng.EvaluateJoin ev j delta).2 = .ok []) := by
  intro eng ev a j delta hunch
  constructor
  · unfold Engine.EvaluateAggregation
    rw [hunch]
    simp
  · intro o hobj
    obtain ⟨dt, dobj⟩ := delta
    simp only [Delta.IsUnchanged, decide_eq_true_eq] at hunch
    subst hunch
    simp only at hobj
    subst hobj
    have hcore := Engine.isValidEventCore_other (eng.initViewStore o.gvk) .Unchanged o (by simp)
    rw [Engine.initViewStore_idem] at hcore
    unfold Engine.EvaluateJoin Engine.evaluateJoin
    simp only [hcore]
    rw [Engine.handleUpsert_nonUpsert _ _ _ (by simp)]

def jW : Join := ⟨Expr.mk "@eq" none⟩

/-- Closed instance of `C7_amended`. -/
theorem C7_witness :
    engA.EvaluateAggregation evTrue agEmpty ⟨.Unchanged, some objA⟩ =
      (engA, .ok [⟨.Unchanged, some objA⟩]) ∧
      (engA.EvaluateJoin evTrue jW ⟨.Unchanged, some objA⟩).2 = .ok [] :=
  ⟨(C7_amended engA evTrue agEmpty jW ⟨.Unchanged, some objA⟩ rfl).1,
   (C7_amended engA evTrue agEmpty jW ⟨.Unchanged, some objA⟩ rfl).2 objA rfl⟩

/-- C6 (counterexample): a `@filter` aggregation stage is not evaluated with
`@select` semantics: on an object and a condition that evaluates to true,
the stage fails with an unknown-stage aggregation error instead of keeping
the object, while the same condition under `@select` keeps it. -/
theorem C6_counterexample :
    evalStage evTrue (Expr.mk "@filter" (some (Expr.mk "@bool" none))) (objA.content) =
      .error (NewAggregationError "unknown aggregation stage") ∧
      evalStage evTrue (Expr.mk "@select" (some (Expr.mk "@bool" none))) (objA.content) =
        .ok [objA.content] := by
  exact ⟨rfl, rfl⟩

/-- C6 (amended): `@filter` as an aggregation stage is not a synonym of
`@select`: `evalStage` recognizes only `@select` and `@project`, so a
`@filter` stage always fails with an unknown-stage aggregation error, while
`@select` keeps the object when the condition evaluates to true and drops it
when it evaluates to false. -/
theorem C6_amended :
    ∀ (ev : EvalFn) (cond : Expr) (u : Unstruct),
      evalStage ev (Expr.mk "@filter" (some cond)) u =
        .error (NewAggregationError "unknown aggregation stage") ∧
        (∀ b, ev cond u = .ok (.bool b) →
          evalStage ev (Expr.mk "@select" (some cond)) u = .ok (if b then [u] else [])) := by
  intro ev cond u
  constructor
  · rfl
  · intro b hb
    unfold evalStage
    simp only [Expr.arg, Expr.op, hb]
    rfl

/-- Closed instance of `C6_amended`. -/
theorem C6_witness :
    evalStage evTrue (Expr.mk "@filter" (some (Expr.mk "@bool" none))) objA.content =
      .error (NewAggregationError "unknown aggregation stage") ∧
      evalStage evTrue (Expr.mk "@select" (some (Expr.mk "@bool" none))) objA.content =
        .ok (if true then [objA.content] else []) :=
  ⟨(C6_amended evTrue (Expr.mk "@bool" none) objA.content).1,
   (C6_amended evTrue (Expr.mk "@bool" none) objA.content).2 true rfl⟩


/-- C9: for every context object, evaluating the dict-literal expression
with the single JSONPath setter key `$.y[3]` bound to the literal 12 yields
exactly the document with `y` a list of three nulls followed by 12: a
numeric step in lvalue position creates a list padded with null up to the
written index. -/
theorem C9_path_setter :
    ∀ ctx : Unstruct,
      SExpr.Evaluate ctx (.dict (.cons "$.y[3]" (.intLit 12) .nil)) =
        .ok (.map (.cons "y"
          (.list (.cons .null (.cons .null (.cons .null (.cons (.int 12) .nil)))))
          .nil)) := by
  intro ctx
  simp only [SExpr.Evaluate, SEntries.evalInto]
  decide

/-- The string at `metadata.field` of a raw content mapping ("" when absent
or not a string). -/
def metaStr (c : Unstruct) (field : String) : String :=
  match c.lookup "metadata" with
  | some (.map m) =>
      match m.lookup field with
      | some (.str s) => s
      | _ => ""
  | _ => ""

theorem Obj.getMeta_eq_metaStr (o : Obj) (f : String) : o.getMeta f = metaStr o.content f := rfl

theorem Obj.gvk_setMeta (o : Obj) (f v : String) : (o.setMeta f v).gvk = o.gvk := rfl

theorem SetContent_gvk (o : Obj) (c : Unstruct) : (SetContent o c).gvk = o.gvk := rfl

theorem lookup_meta_SetContent (o : Obj) (c : Unstruct) :
    (SetContent o c).content.lookup "metadata" = c.lookup "metadata" := by
  unfold SetContent
  simp only
  rw [VMap.lookup_setKey_ne _ _ _ _ (by decide), VMap.lookup_setKey_ne _ _ _ _ (by decide)]

theorem getMeta_SetContent (o : Obj) (c : Unstruct) (f : String) :
    (SetContent o c).getMeta f = metaStr c f := by
  unfold Obj.getMeta metaStr
  rw [lookup_meta_SetContent]

theorem Obj.getMeta_setMeta_eq (o : Obj) (f v : String) :
    (o.setMeta f v).getMeta f = v := by
  unfold Obj.setMeta Obj.getMeta
  simp only
  rw [VMap.lookup_setKey_eq]
  simp only
  rw [VMap.lookup_setKey_eq]

theorem Obj.getMeta_setMeta_ne (o : Obj) (f f' v : String) (h : f ≠ f') :
    (o.setMeta f v).getMeta f' = o.getMeta f' := by
  unfold Obj.setMeta Obj.getMeta
  simp only
  rw [VMap.lookup_setKey_eq]
  simp only
  rw [VMap.lookup_setKey_ne _ _ _ _ h]
  match h1 : o.content.lookup "metadata" with
  | some (.map m) => simp
  | some .null | some (.bool _) | some (.int _) | some (.str _) | some (.list _) =>
      simp [VMap.lookup]
  | none => simp [VMap.lookup]

/-- The document shape after `SetContent`, `SetName`, `SetNamespace` as the
later `Normalize` applies them. -/
theorem setters_shape (base : Obj) (c2 : Unstruct) (nameStr nsStr : String) :
    (((SetContent base c2).SetName nameStr).SetNamespace nsStr).GetName = nameStr ∧
      (((SetContent base c2).SetName nameStr).SetNamespace nsStr).GetNamespace = nsStr ∧
      (((SetContent base c2).SetName nameStr).SetNamespace nsStr).gvk = base.gvk := by
  unfold Obj.SetName Obj.SetNamespace Obj.GetName Obj.GetNamespace
  refine ⟨?_, ?_, rfl⟩
  · rw [Obj.getMeta_setMeta_ne _ _ _ _ (by decide), Obj.getMeta_setMeta_eq]
  · rw [Obj.getMeta_setMeta_eq]

/-- Decidable claim-side predicate: the content carries a metadata mapping
holding a non-empty string name. -/
def hasValidName (content : Unstruct) : Bool :=
  match content.lookup "metadata" with
  | some (.map m) =>
      match m.lookup "name" with
      | some (.str s) => !(s = "")
      | _ => false
  | _ => false

/-- Decidable claim-side predicate: the content has a metadata mapping with a
namespace entry that is not a string. -/
def hasBadNamespace (content : Unstruct) : Bool :=
  match content.lookup "metadata" with
  | some (.map m) =>
      match m.lookup "namespace" with
      | some (.str _) => false
      | some _ => true
      | none => false
  | _ => false


/-- C8: `Normalize` (later revision) returns an invalid-object error exactly
when the content lacks a metadata mapping holding a non-empty string name or
has a non-string namespace; otherwise it returns an object stamped with the
engine's target view as kind whose name equals `metadata.name` and whose
namespace equals `metadata.namespace`, defaulting to the empty string when
the namespace is absent. -/
theorem C8_normalize :
    ∀ (view : String) (content : Unstruct),
      (isError (NormalizeV6 view content) = true ↔
        (hasValidName content = false ∨ hasBadNamespace content = true)) ∧
      ∀ o, NormalizeV6 view content = .ok o →
        o.gvk = ⟨viewGroup, viewVersion, view⟩ ∧
          o.GetName = metaStr content "name" ∧
          o.GetNamespace = metaStr content "namespace" := by
  intro view content
  unfold NormalizeV6 hasValidName hasBadNamespace metaStr
  cases h1 : content.lookup "metadata" with
  | none =>
      exact ⟨by simp [isError, h1], by intro o ho; simp [h1] at ho⟩
  | some meta =>
      cases meta with
      | map metaMap =>
          simp only [h1]
          cases h2 : metaMap.lookup "namespace" with
          | none =>
              simp only [h2]
              cases h3 : metaMap.lookup "name" with
              | none => exact ⟨by simp [isError, h3], by intro o ho; simp [h3] at ho⟩
              | some nm =>
                  cases nm with
                  | str s =>
                      by_cases hs : s = ""
                      · subst hs
                        exact ⟨by simp [isError, h3], by intro o ho; simp [h3] at ho⟩
                      · refine ⟨by simp [isError, h3, hs], ?_⟩
                        intro o ho
                        simp only [h3, hs, if_false, Except.ok.injEq] at ho
                        subst ho
                        obtain ⟨hn, hns, hg⟩ := setters_shape (NewViewObject view) _ s ""
                        exact ⟨hg, hn, hns⟩
                  | null => exact ⟨by simp [isError, h3], by intro o ho; simp [h3] at ho⟩
                  | bool b => exact ⟨by simp [isError, h3], by intro o ho; simp [h3] at ho⟩
                  | int n => exact ⟨by simp [isError, h3], by intro o ho; simp [h3] at ho⟩
                  | list xs => exact ⟨by simp [isError, h3], by intro o ho; simp [h3] at ho⟩
                  | map mm => exact ⟨by simp [isError, h3], by intro o ho; simp [h3] at ho⟩
          | some nsv =>
              cases nsv with
              | str s' =>
                  simp only [h2]
                  rw [VMap.lookup_setKey_ne _ _ _ _ (by decide)]
                  cases h3 : metaMap.lookup "name" with
                  | none => exact ⟨by simp [isError, h3], by intro o ho; simp [h3] at ho⟩
                  | some nm =>
                      cases nm with
                      | str s =>
                          by_cases hs : s = ""
                          · subst hs
                            exact ⟨by simp [isError, h3], by intro o ho; simp [h3] at ho⟩
                          · refine ⟨by simp [isError, h3, hs], ?_⟩
                            intro o ho
                            simp only [h3, hs, if_false, Except.ok.injEq] at ho
                            subst ho
                            obtain ⟨hn, hns, hg⟩ := setters_shape (NewViewObject view) _ s s'
                            exact ⟨hg, hn, hns⟩
                      | null => exact ⟨by simp [isError, h3], by intro o ho; simp [h3] at ho⟩
                      | bool b => exact ⟨by simp [isError, h3], by intro o ho; simp [h3] at ho⟩
                      | int n => exact ⟨by simp [isError, h3], by intro o ho; simp [h3] at ho⟩
                      | list xs => exact ⟨by simp [isError, h3], by intro o ho; simp [h3] at ho⟩
                      | map mm => exact ⟨by simp [isError, h3], by intro o ho; simp [h3] at ho⟩
              | null => exact ⟨by simp [isError, h2], by intro o ho; simp [h2] at ho⟩
              | bool b => exact ⟨by simp [isError, h2], by intro o ho; simp [h2] at ho⟩
              | int n => exact ⟨by simp [isError, h2], by intro o ho; simp [h2] at ho⟩
              | list xs => exact ⟨by simp [isError, h2], by intro o ho; simp [h2] at ho⟩
              | map mm => exact ⟨by simp [isError, h2], by intro o ho; simp [h2] at ho⟩
      | null => exact ⟨by simp [isError, h1], by intro o ho; simp [h1] at ho⟩
      | bool b => exact ⟨by simp [isError, h1], by intro o ho; simp [h1] at ho⟩
      | int n => exact ⟨by simp [isError, h1], by intro o ho; simp [h1] at ho⟩
      | str s => exact ⟨by simp [isError, h1], by intro o ho; simp [h1] at ho⟩
      | list xs => exact ⟨by simp [isError, h1], by intro o ho; simp [h1] at ho⟩

def contentW : Unstruct := .cons "metadata" (.map (.cons "name" (.str "a") .nil)) .nil

def obj6W : Obj :=
  match NormalizeV6 "view" contentW with
  | .ok o => o
  | .error _ => NewViewObject "view"

def obj5W : Obj :=
  match NormalizeV5 "view" contentW with
  | .ok o => o
  | .error _ => NewViewObject "view"

/-- Closed instance of `C8_normalize`. -/
theorem C8_witness :
    (isError (NormalizeV6 "view" contentW) = true ↔
      (hasValidName contentW = false ∨ hasBadNamespace contentW = true)) ∧
      (obj6W.gvk = ⟨viewGroup, viewVersion, "view"⟩ ∧
        obj6W.GetName = metaStr contentW "name" ∧
        obj6W.GetNamespace = metaStr contentW "namespace") :=
  ⟨(C8_normalize "view" contentW).1, (C8_normalize "view" contentW).2 obj6W (by decide)⟩

/-- A metadata mapping with a namespace entry (of any type). -/
def hasNsKey (c : Unstruct) : Bool :=
  match c.lookup "metadata" with
  | some (.map m) => (m.lookup "namespace").isSome
  | _ => false

theorem setMeta_noop (o : Obj) (f v : String) (m : VMap)
    (hm : o.content.lookup "metadata" = some (.map m))
    (hf : m.lookup f = some (.str v)) :
    o.setMeta f v = o := by
  unfold Obj.setMeta
  simp only [hm]
  rw [VMap.setKey_self m f _ hf, VMap.setKey_self _ _ _ hm]

/-- C10 (counterexample): on the content carrying only a metadata name, both
`Normalize` revisions succeed but return objects with different unstructured
content (the later revision materializes `metadata.namespace` as the empty
string, the earlier one leaves the key out). -/
theorem C10_counterexample :
    NormalizeV5 "view" contentW = .ok obj5W ∧
      NormalizeV6 "view" contentW = .ok obj6W ∧
      obj5W.content ≠ obj6W.content ∧
      obj5W.GetNamespace = obj6W.GetNamespace := by
  refine ⟨by decide, by decide, by decide, by decide⟩

theorem NormalizeV5_err_badns (view : String) (content : Unstruct) (metaMap : VMap)
    (nsv : Value) (h1 : content.lookup "metadata" = some (.map metaMap))
    (h2 : metaMap.lookup "namespace" = some nsv) (hb : ∀ s, nsv ≠ .str s) :
    isError (NormalizeV5 view content) = true := by
  unfold NormalizeV5
  simp only [h1]
  cases h3 : metaMap.lookup "name" with
  | none => simp [isError]
  | some nm =>
      cases nm with
      | str s =>
          by_cases hs : s = ""
          · simp [isError, hs]
          · simp only [hs, if_false, h2]
            cases nsv with
            | str s2 => exact absurd rfl (hb s2)
            | null => simp [isError]
            | bool b => simp [isError]
            | int n => simp [isError]
            | list xs => simp [isError]
            | map mm => simp [isError]
      | null => simp [isError]
      | bool b => simp [isError]
      | int n => simp [isError]
      | list xs => simp [isError]
      | map mm => simp [isError]

theorem NormalizeV6_err_badns (view : String) (content : Unstruct) (metaMap : VMap)
    (nsv : Value) (h1 : content.lookup "metadata" = some (.map metaMap))
    (h2 : metaMap.lookup "namespace" = some nsv) (hb : ∀ s, nsv ≠ .str s) :
    isError (NormalizeV6 view content) = true := by
  unfold NormalizeV6
  simp only [h1, h2]
  cases nsv with
  | str s2 => exact absurd rfl (hb s2)
  | null => simp [isError]
  | bool b => simp [isError]
  | int n => simp [isError]
  | list xs => simp [isError]
  | map mm => simp [isError]

/-- C10 (amended): the two `Normalize` revisions agree on which inputs are
errors, and on success they agree on the object's group-version-kind, name
and namespace; the unstructured contents agree whenever the input metadata
carries a namespace entry, while for an absent namespace the later revision
adds `metadata.namespace = ""` and the earlier one does not. -/
theorem C10_amended :
    ∀ (view : String) (content : Unstruct),
      isError (NormalizeV5 view content) = isError (NormalizeV6 view content) ∧
      ∀ o5 o6, NormalizeV5 view content = .ok o5 → NormalizeV6 view content = .ok o6 →
        o5.gvk = o6.gvk ∧ o5.GetName = o6.GetName ∧ o5.GetNamespace = o6.GetNamespace ∧
          (hasNsKey content = true → o5.content = o6.content) := by
  intro view content
  cases h1 : content.lookup "metadata" with
  | none =>
      refine ⟨?_, ?_⟩
      · rw [show isError (NormalizeV5 view content) = true from by
            unfold NormalizeV5; simp [h1, isError],
          show isError (NormalizeV6 view content) = true from by
            unfold NormalizeV6; simp [h1, isError]]
      · intro o5 o6 ho5 ho6
        unfold NormalizeV5 at ho5
        simp [h1] at ho5
  | some meta =>
      cases meta with
      | null =>
          refine ⟨?_, ?_⟩
          · rw [show isError (NormalizeV5 view content) = true from by
                unfold NormalizeV5; simp [h1, isError],
              show isError (NormalizeV6 view content) = true from by
                unfold NormalizeV6; simp [h1, isError]]
          · intro o5 o6 ho5 ho6
            unfold NormalizeV5 at ho5
            simp [h1] at ho5
      | bool b =>
          refine ⟨?_, ?_⟩
          · rw [show isError (NormalizeV5 view content) = true from by
                unfold NormalizeV5; simp [h1, isError],
              show isError (NormalizeV6 view content) = true from by
                unfold NormalizeV6; simp [h1, isError]]
          · intro o5 o6 ho5 ho6
            unfold NormalizeV5 at ho5
            simp [h1] at ho5
      | int n =>
          refine ⟨?_, ?_⟩
          · rw [show isError (NormalizeV5 view content) = true from by
                unfold NormalizeV5; simp [h1, isError],
              show isError (NormalizeV6 view content) = true from by
                unfold NormalizeV6; simp [h1, isError]]
          · intro o5 o6 ho5 ho6
            unfold NormalizeV5 at ho5
            simp [h1] at ho5
      | str s =>
          refine ⟨?_, ?_⟩
          · rw [show isError (NormalizeV5 view content) = true from by
                unfold NormalizeV5; simp [h1, isError],
              show isError (NormalizeV6 view content) = true from by
                unfold NormalizeV6; simp [h1, isError]]
          · intro o5 o6 ho5 ho6
            unfold NormalizeV5 at ho5
            simp [h1] at ho5
      | list xs =>
          refine ⟨?_, ?_⟩
          · rw [show isError (NormalizeV5 view content) = true from by
                unfold NormalizeV5; simp [h1, isError],
              show isError (NormalizeV6 view content) = true from by
                unfold NormalizeV6; simp [h1, isError]]
          · intro o5 o6 ho5 ho6
            unfold NormalizeV5 at ho5
            simp [h1] at ho5
      | map metaMap =>
          cases h2 : metaMap.lookup "namespace" with
          | some nsv =>
              cases nsv with
              | str s' =>
                  unfold NormalizeV5 NormalizeV6
                  simp only [h1, h2]
                  rw [VMap.setKey_self metaMap "namespace" _ h2]
                  cases h3 : metaMap.lookup "name" with
                  | none =>
                      exact ⟨by simp [isError, h3],
                        by intro o5 o6 ho5 ho6; simp [h3] at ho5⟩
                  | some nm =>
                      cases nm with
                      | str s =>
                          by_cases hs : s = ""
                          · subst hs
                            exact ⟨by simp [isError, h3],
                              by intro o5 o6 ho5 ho6; simp [h3] at ho5⟩
                          · refine ⟨by simp [isError, h3, hs], ?_⟩
                            intro o5 o6 ho5 ho6
                            simp only [h3, hs, if_false, Except.ok.injEq] at ho5 ho6
                            subst ho5
                            subst ho6
                            rw [VMap.setKey_self metaMap "name" _ h3,
                              VMap.setKey_self content "metadata" _ h1]
                            rw [show (SetContent (NewViewObject view) content).SetName s =
                                  SetContent (NewViewObject view) content from
                                setMeta_noop _ _ _ metaMap
                                  (by rw [lookup_meta_SetContent]; exact h1) h3]
                            rw [show (SetContent (NewViewObject view) content).SetNamespace s' =
                                  SetContent (NewViewObject view) content from
                                setMeta_noop _ _ _ metaMap
                                  (by rw [lookup_meta_SetContent]; exact h1) h2]
                            refine ⟨rfl, ?_, ?_, fun _ => rfl⟩
                            · unfold Obj.GetName
                              rw [getMeta_SetContent, getMeta_SetContent]
                            · unfold Obj.GetNamespace
                              rw [getMeta_SetContent, getMeta_SetContent]
                      | null =>
                          exact ⟨by simp [isError, h3],
                            by intro o5 o6 ho5 ho6; simp [h3] at ho5⟩
                      | bool b =>
                          exact ⟨by simp [isError, h3],
                            by intro o5 o6 ho5 ho6; simp [h3] at ho5⟩
                      | int n =>
                          exact ⟨by simp [isError, h3],
                            by intro o5 o6 ho5 ho6; simp [h3] at ho5⟩
                      | list xs =>
                          exact ⟨by simp [isError, h3],
                            by intro o5 o6 ho5 ho6; simp [h3] at ho5⟩
                      | map mm =>
                          exact ⟨by simp [isError, h3],
                            by intro o5 o6 ho5 ho6; simp [h3] at ho5⟩
              | null =>
                  refine ⟨?_, ?_⟩
                  · rw [NormalizeV5_err_badns view content metaMap _ h1 h2 (by intro s h; cases h),
                      NormalizeV6_err_badns view content metaMap _ h1 h2 (by intro s h; cases h)]
                  · intro o5 o6 ho5 ho6
                    have hbad := NormalizeV5_err_badns view content metaMap _ h1 h2
                      (by intro s h; cases h)
                    rw [ho5] at hbad
                    simp [isError] at hbad
              | bool b =>
                  refine ⟨?_, ?_⟩
                  · rw [NormalizeV5_err_badns view content metaMap _ h1 h2 (by intro s h; cases h),
                      NormalizeV6_err_badns view content metaMap _ h1 h2 (by intro s h; cases h)]
                  · intro o5 o6 ho5 ho6
                    have hbad := NormalizeV5_err_badns view content metaMap _ h1 h2
                      (by intro s h; cases h)
                    rw [ho5] at hbad
                    simp [isError] at hbad
              | int n =>
                  refine ⟨?_, ?_⟩
                  · rw [NormalizeV5_err_badns view content metaMap _ h1 h2 (by intro s h; cases h),
                      NormalizeV6_err_badns view content metaMap _ h1 h2 (by intro s h; cases h)]
                  · intro o5 o6 ho5 ho6
                    have hbad := NormalizeV5_err_badns view content metaMap _ h1 h2
                      (by intro s h; cases h)
                    rw [ho5] at hbad
                    simp [isError] at hbad
              | list xs =>
                  refine ⟨?_, ?_⟩
                  · rw [NormalizeV5_err_badns view content metaMap _ h1 h2 (by intro s h; cases h),
                      NormalizeV6_err_badns view content metaMap _ h1 h2 (by intro s h; cases h)]
                  · intro o5 o6 ho5 ho6
                    have hbad := NormalizeV5_err_badns view content metaMap _ h1 h2
                      (by intro s h; cases h)
                    rw [ho5] at hbad
                    simp [isError] at hbad
              | map mm =>
                  refine ⟨?_, ?_⟩
                  · rw [NormalizeV5_err_badns view content metaMap _ h1 h2 (by intro s h; cases h),
                      NormalizeV6_err_badns view content metaMap _ h1 h2 (by intro s h; cases h)]
                  · intro o5 o6 ho5 ho6
                    have hbad := NormalizeV5_err_badns view content metaMap _ h1 h2
                      (by intro s h; cases h)
                    rw [ho5] at hbad
                    simp [isError] at hbad
          | none =>
              unfold NormalizeV5 NormalizeV6
              simp only [h1, h2]
              cases h3 : metaMap.lookup "name" with
              | none =>
                  exact ⟨by simp [isError, h3],
                    by intro o5 o6 ho5 ho6; simp [h3] at ho5⟩
              | some nm =>
                  cases nm with
                  | str s =>
                      by_cases hs : s = ""
                      · subst hs
                        exact ⟨by simp [isError, h3],
                          by intro o5 o6 ho5 ho6; simp [h3] at ho5⟩
                      · refine ⟨by simp [isError, h3, hs], ?_⟩
                        intro o5 o6 ho5 ho6
                        simp only [h3, hs, if_false, Except.ok.injEq] at ho5 ho6
                        subst ho5
                        subst ho6
                        rw [VMap.setKey_self metaMap "name" _ h3,
                          VMap.setKey_self content "metadata" _ h1]
                        rw [show (SetContent (NewViewObject view) content).SetName s =
                              SetContent (NewViewObject view) content from
                            setMeta_noop _ _ _ metaMap
                              (by rw [lookup_meta_SetContent]; exact h1) h3]
                        refine ⟨rfl, ?_, ?_, ?_⟩
                        · unfold Obj.GetName Obj.SetNamespace
                          rw [Obj.getMeta_setMeta_ne _ _ _ _ (by decide),
                            getMeta_SetContent, getMeta_SetContent]
                        · unfold Obj.GetNamespace Obj.SetNamespace
                          rw [Obj.getMeta_setMeta_eq, getMeta_SetContent]
                          simp [metaStr, h1, h2]
                        · intro hk
                          simp [hasNsKey, h1, h2] at hk
                  | null =>
                      exact ⟨by simp [isError, h3],
                        by intro o5 o6 ho5 ho6; simp [h3] at ho5⟩
                  | bool b =>
                      exact ⟨by simp [isError, h3],
                        by intro o5 o6 ho5 ho6; simp [h3] at ho5⟩
                  | int n =>
                      exact ⟨by simp [isError, h3],
                        by intro o5 o6 ho5 ho6; simp [h3] at ho5⟩
                  | list xs =>
                      exact ⟨by simp [isError, h3],
                        by intro o5 o6 ho5 ho6; simp [h3] at ho5⟩
                  | map mm =>
                      exact ⟨by simp [isError, h3],
                        by intro o5 o6 ho5 ho6; simp [h3] at ho5⟩

def contentW2 : Unstruct :=
  .cons "metadata" (.map (.cons "name" (.str "a") (.cons "namespace" (.str "ns") .nil))) .nil

def obj5W2 : Obj :=
  match NormalizeV5 "view" contentW2 with
  | .ok o => o
  | .error _ => NewViewObject "view"

def obj6W2 : Obj :=
  match NormalizeV6 "view" contentW2 with
  | .ok o => o
  | .error _ => NewViewObject "view"

/-- Closed instance of `C10_amended`. -/
theorem C10_witness :
    isError (NormalizeV5 "view" contentW2) = isError (NormalizeV6 "view" contentW2) ∧
      obj5W2.gvk = obj6W2.gvk ∧ obj5W2.GetName = obj6W2.GetName ∧
      obj5W2.GetNamespace = obj6W2.GetNamespace ∧ obj5W2.content = obj6W2.content :=
  ⟨(C10_amended "view" contentW2).1,
    ((C10_amended "view" contentW2).2 obj5W2 obj6W2 (by decide) (by decide)).1,
    ((C10_amended "view" contentW2).2 obj5W2 obj6W2 (by decide) (by decide)).2.1,
    ((C10_amended "view" contentW2).2 obj5W2 obj6W2 (by decide) (by decide)).2.2.1,
    ((C10_amended "view" contentW2).2 obj5W2 obj6W2 (by decide) (by decide)).2.2.2 (by decide)⟩

theorem Engine.isValidEventCore_fst (eng : Engine) (dt : DeltaType) (o : Obj) :
    (eng.isValidEventCore ⟨dt, some o⟩).1 = eng.initViewStore o.gvk := by
  unfold Engine.isValidEventCore
  simp only
  by_cases hty : dt = .Added ∨ dt = .Updated ∨ dt = .Upserted ∨ dt = .Replaced
  · rw [if_pos hty]
    cases (eng.initViewStore o.gvk).lookupObj o.gvk (objectKey o) with
    | some stored => rfl
    | none => rfl
  · rw [if_neg hty]

def evSelA : EvalFn := fun _ u =>
  match u.lookup "a" with
  | some _ => .ok (.bool true)
  | none => .error "missing field a"

def agSel : Aggregation := ⟨[Expr.mk "@select" (some (Expr.mk "@string" none))]⟩

/-- C1 (counterexample): a failed Update event can leave the view stores
changed: with the previously stored object passing the aggregation condition
and the new object failing it, the Delete half removes the stored object
from the store and then the Add half fails, so the event returns an error
while the store no longer holds the object it held at the start. -/
theorem C1_counterexample :
    isError (engA.EvaluateAggregation evSelA agSel ⟨.Updated, some objA2⟩).2 = true ∧
      engA.lookupObj gA (objectKey objA) = some objA ∧
      (engA.EvaluateAggregation evSelA agSel ⟨.Updated, some objA2⟩).1.lookupObj gA
        (objectKey objA) = none := by
  refine ⟨by decide, by decide, by decide⟩


theorem Engine.aggDelete_none (eng : Engine) (ev : EvalFn) (a : Aggregation) (o : Obj)
    (hlk : eng.lookupObj o.gvk (objectKey o) = none) :
    eng.aggDelete ev a o = (eng, .ok []) := by
  unfold Engine.aggDelete
  rw [hlk]

theorem Engine.aggDelete_some (eng : Engine) (ev : EvalFn) (a : Aggregation) (o old : Obj)
    (hlk : eng.lookupObj o.gvk (objectKey o) = some old) :
    eng.aggDelete ev a o =
      (match eng.evalAggregation ev a (DeepCopy old) with
       | .error e => (eng, .error (NewAggregationError e))
       | .ok objs =>
           (eng.storeDelete o.gvk old, .ok (objs.map fun ob => ⟨.Deleted, some ob⟩))) := by
  unfold Engine.aggDelete
  rw [hlk]

theorem Engine.joinDelete_none (eng : Engine) (ev : EvalFn) (j : Join) (o : Obj)
    (hlk : eng.lookupObj o.gvk (objectKey o) = none) :
    eng.joinDelete ev j o = (eng, .ok []) := by
  unfold Engine.joinDelete
  rw [hlk]

theorem Engine.joinDelete_some (eng : Engine) (ev : EvalFn) (j : Join) (o old : Obj)
    (hlk : eng.lookupObj o.gvk (objectKey o) = some old) :
    eng.joinDelete ev j o =
      (match eng.evalJoin ev j old with
       | .error e => (eng, .error (NewJoinError e))
       | .ok os => (eng.storeDelete o.gvk old, .ok (os.map fun ob => ⟨.Deleted, some ob⟩))) := by
  unfold Engine.joinDelete
  rw [hlk]

/-- C1 (amended): for input deltas other than Update/Replace (and other than
an Upsert, which the engine may reclassify into an Update), a pipeline
evaluation error leaves every stored object unchanged, for aggregation and
join evaluation alike; for Update/Replace an error in the Add half after a
successful Delete half can leave the previously stored version removed. -/
theorem C1_amended :
    ∀ (eng : Engine) (ev : EvalFn) (delta : Delta),
      delta.type ≠ .Updated → delta.type ≠ .Replaced → delta.type ≠ .Upserted →
      (∀ (a : Aggregation) (e : Err),
        (eng.EvaluateAggregation ev a delta).2 = .error e →
        ∀ (g : GVK) (k : String),
          (eng.EvaluateAggregation ev a delta).1.lookupObj g k = eng.lookupObj g k) ∧
      (∀ (j : Join) (e : Err),
        (eng.EvaluateJoin ev j delta).2 = .error e →
        ∀ (g : GVK) (k : String),
          (eng.EvaluateJoin ev j delta).1.lookupObj g k = eng.lookupObj g k) := by
  intro eng ev delta hU hR hUp
  obtain ⟨dt, dobj⟩ := delta
  constructor
  · intro a e herr g k
    cases dobj with
    | none =>
        cases dt with
        | Updated => exact absurd rfl hU
        | Replaced => exact absurd rfl hR
        | Upserted => exact absurd rfl hUp
        | Unchanged =>
            unfold Engine.EvaluateAggregation at herr
            simp [Delta.IsUnchanged] at herr
        | Added => rfl
        | Deleted => rfl
    | some o =>
        have hfst := Engine.isValidEventCore_fst (eng.initViewStore o.gvk) dt o
        rcases hcore : (eng.initViewStore o.gvk).isValidEventCore ⟨dt, some o⟩ with ⟨eng1, b⟩
        rw [hcore] at hfst
        simp only at hfst
        rw [Engine.initViewStore_idem] at hfst
        subst hfst
        cases dt with
        | Updated => exact absurd rfl hU
        | Replaced => exact absurd rfl hR
        | Upserted => exact absurd rfl hUp
        | Unchanged =>
            unfold Engine.EvaluateAggregation at herr
            simp [Delta.IsUnchanged] at herr
        | Added =>
            have hup : (eng.initViewStore o.gvk).handleUpsertEvent ⟨.Added, some o⟩ =
                ⟨.Added, some o⟩ := Engine.handleUpsert_nonUpsert _ _ _ (by simp)
            have hunch : (⟨DeltaType.Added, some o⟩ : Delta).IsUnchanged = false := rfl
            unfold Engine.EvaluateAggregation at herr ⊢
            rw [hunch] at herr ⊢
            cases b with
            | false =>
                simp only [Bool.false_eq_true, if_false, hcore] at herr
                simp at herr
            | true =>
                simp only [Bool.false_eq_true, if_false, hcore, hup] at herr ⊢
                have ha : (eng.initViewStore o.gvk).evaluateAggregation ev a ⟨.Added, some o⟩ =
                    (eng.initViewStore o.gvk).aggAdd ev a o := rfl
                rw [ha] at herr ⊢
                unfold Engine.aggAdd at herr ⊢
                rcases hev : (eng.initViewStore o.gvk).evalAggregation ev a (DeepCopy o)
                  with er | objs
                · rw [hev] at herr
                  simp only
                  exact Engine.lookupObj_init eng o.gvk g k
                · rw [hev] at herr
                  simp at herr
        | Deleted =>
            have hup : (eng.initViewStore o.gvk).handleUpsertEvent ⟨.Deleted, some o⟩ =
                ⟨.Deleted, some o⟩ := Engine.handleUpsert_nonUpsert _ _ _ (by simp)
            have hunch : (⟨DeltaType.Deleted, some o⟩ : Delta).IsUnchanged = false := rfl
            unfold Engine.EvaluateAggregation at herr ⊢
            rw [hunch] at herr ⊢
            cases b with
            | false =>
                simp only [Bool.false_eq_true, if_false, hcore] at herr
                simp at herr
            | true =>
                simp only [Bool.false_eq_true, if_false, hcore, hup] at herr ⊢
                have ha : (eng.initViewStore o.gvk).evaluateAggregation ev a ⟨.Deleted, some o⟩ =
                    (eng.initViewStore o.gvk).aggDelete ev a o := rfl
                rw [ha] at herr ⊢
                rcases hlk : (eng.initViewStore o.gvk).lookupObj o.gvk (objectKey o) with _ | old
                · rw [Engine.aggDelete_none _ _ _ _ hlk] at herr
                  simp at herr
                · rw [Engine.aggDelete_some _ _ _ _ _ hlk] at herr ⊢
                  rcases hev : (eng.initViewStore o.gvk).evalAggregation ev a (DeepCopy old)
                    with er | objs
                  · rw [hev] at herr
                    simp only
                    exact Engine.lookupObj_init eng o.gvk g k
                  · rw [hev] at herr
                    simp at herr
  · intro j e herr g k
    cases dobj with
    | none =>
        cases dt with
        | Updated => exact absurd rfl hU
        | Replaced => exact absurd rfl hR
        | Upserted => exact absurd rfl hUp
        | Unchanged => rfl
        | Added => rfl
        | Deleted => rfl
    | some o =>
        have hfst := Engine.isValidEventCore_fst (eng.initViewStore o.gvk) dt o
        rcases hcore : (eng.initViewStore o.gvk).isValidEventCore ⟨dt, some o⟩ with ⟨eng1, b⟩
        rw [hcore] at hfst
        simp only at hfst
        rw [Engine.initViewStore_idem] at hfst
        subst hfst
        cases dt with
        | Updated => exact absurd rfl hU
        | Replaced => exact absurd rfl hR
        | Upserted => exact absurd rfl hUp
        | Unchanged =>
            have hup : (eng.initViewStore o.gvk).handleUpsertEvent ⟨.Unchanged, some o⟩ =
                ⟨.Unchanged, some o⟩ := Engine.handleUpsert_nonUpsert _ _ _ (by simp)
            unfold Engine.EvaluateJoin Engine.evaluateJoin at herr
            cases b with
            | false =>
                simp only [hcore] at herr
                simp at herr
            | true =>
                simp only [hcore, hup] at herr
                simp at herr
        | Added =>
            have hup : (eng.initViewStore o.gvk).handleUpsertEvent ⟨.Added, some o⟩ =
                ⟨.Added, some o⟩ := Engine.handleUpsert_nonUpsert _ _ _ (by simp)
            unfold Engine.EvaluateJoin Engine.evaluateJoin at herr ⊢
            cases b with
            | false =>
                simp only [hcore] at herr
                simp at herr
            | true =>
                simp only [hcore, hup] at herr ⊢
                unfold Engine.joinAdd at herr ⊢
                rcases hev : (eng.initViewStore o.gvk).evalJoin ev j o with er | os
                · rw [hev] at herr
                  simp only
                  exact Engine.lookupObj_init eng o.gvk g k
                · rw [hev] at herr
                  simp at herr
        | Deleted =>
            have hup : (eng.initViewStore o.gvk).handleUpsertEvent ⟨.Deleted, some o⟩ =
                ⟨.Deleted, some o⟩ := Engine.handleUpsert_nonUpsert _ _ _ (by simp)
            unfold Engine.EvaluateJoin Engine.evaluateJoin at herr ⊢
            cases b with
            | false =>
                simp only [hcore] at herr
                simp at herr
            | true =>
                simp only [hcore, hup] at herr ⊢
                rcases hlk : (eng.initViewStore o.gvk).lookupObj o.gvk (objectKey o) with _ | old
                · rw [Engine.joinDelete_none _ _ _ _ hlk] at herr
                  simp at herr
                · rw [Engine.joinDelete_some _ _ _ _ _ hlk] at herr ⊢
                  rcases hev : (eng.initViewStore o.gvk).evalJoin ev j old with er | os
                  · rw [hev] at herr
                    simp only
                    exact Engine.lookupObj_init eng o.gvk g k
                  · rw [hev] at herr
                    simp at herr

def evFail : EvalFn := fun _ _ => .error "boom"

/-- Closed instance of `C1_amended`. -/
theorem C1_witness :
    ((engA.EvaluateAggregation evFail agSel ⟨.Added, some objA2⟩).1.lookupObj gA "ns/x" =
        engA.lookupObj gA "ns/x") ∧
      ((engA.EvaluateJoin evFail jW ⟨.Added, some objA2⟩).1.lookupObj gA "ns/x" =
        engA.lookupObj gA "ns/x") :=
  ⟨(C1_amended engA evFail ⟨.Added, some objA2⟩ (by decide) (by decide) (by decide)).1 agSel
      (NewAggregationError "boom") (by decide) gA "ns/x",
    (C1_amended engA evFail ⟨.Added, some objA2⟩ (by decide) (by decide) (by decide)).2 jW
      (NewJoinError (NewExpressionError (NewExpressionError "boom"))) (by decide) gA "ns/x"⟩

def engEmptyB : Engine := ⟨"view", [gA, gB], [(gB, NewStore)]⟩

def engNoB : Engine := ⟨"view", [gA, gB], []⟩

/-- C5 (counterexample): a combination on which the join condition errors is
not dropped as a non-match: the error is returned to the caller; moreover a
base view whose store exists but is empty contributes no combination at all
(empty result), while only a view with no store bucket contributes the nil
slot (one combination). -/
theorem C5_counterexample :
    (engA.EvaluateJoin evFail jW ⟨.Added, some objA2⟩).2 =
      .error (NewJoinError (NewExpressionError (NewExpressionError "boom"))) ∧
      (engEmptyB.EvaluateJoin evTrue jW ⟨.Added, some objA2⟩).2 = .ok [] ∧
      (engNoB.EvaluateJoin evTrue jW ⟨.Added, some objA2⟩).2.map List.length = .ok 1 := by
  refine ⟨by decide, by decide, by decide⟩

/-- C5 (amended): during join evaluation of an Added object over two base
views, a base view with no store bucket allocated yet contributes nil at its
slot of the product; if evaluating the join condition on that combination
errors, the join aborts and the wrapped error is returned to the caller (the
store is left without the object); a false condition yields no output and a
true condition yields the single combined object. -/
theorem C5_amended :
    ∀ (eng : Engine) (ev : EvalFn) (j : Join) (o : Obj) (g2 : GVK),
      eng.baseviews = [o.gvk, g2] → o.gvk ≠ g2 →
      eng.getStore g2 = none →
      eng.lookupObj o.gvk (objectKey o) = none →
      eng.EvaluateJoin ev j ⟨.Added, some o⟩ =
        (match joinEvalFn ev j [some o, none] with
         | .error e =>
             (eng.initViewStore o.gvk, .error (NewJoinError (NewExpressionError e)))
         | .ok none => ((eng.initViewStore o.gvk).storeAdd o.gvk o, .ok [])
         | .ok (some newObj) =>
             ((eng.initViewStore o.gvk).storeAdd o.gvk o, .ok [⟨.Added, some newObj⟩])) := by
  intro eng ev j o g2 hb hne hsB hlk
  have hcore := Engine.isValidEventCore_absent (eng.initViewStore o.gvk) .Added o
    (by rw [Engine.lookupObj_init]; exact hlk)
  rw [Engine.initViewStore_idem] at hcore
  have hup : (eng.initViewStore o.gvk).handleUpsertEvent ⟨.Added, some o⟩ =
      ⟨.Added, some o⟩ := Engine.handleUpsert_nonUpsert _ _ _ (by simp)
  unfold Engine.EvaluateJoin Engine.evaluateJoin
  simp only [hcore, hup]
  have hcombos : (eng.initViewStore o.gvk).combos o [o.gvk, g2] = [[some o, none]] := by
    simp [Engine.combos, Engine.slotsFor, hne, Engine.getStore_init_ne _ _ _ hne, hsB]
  have hbv : (eng.initViewStore o.gvk).baseviews = [o.gvk, g2] := by
    rw [Engine.initViewStore_baseviews, hb]
  unfold Engine.joinAdd Engine.evalJoin Engine.product
  rw [hbv]
  rw [if_neg (show ¬([o.gvk, g2].length < 2) from by simp)]
  unfold Engine.recurseProd
  rw [hcombos]
  unfold evalCombos
  simp only [List.nil_append]
  rcases hj : joinEvalFn ev j [some o, none] with e | oo
  · rfl
  · cases oo with
    | none => rfl
    | some newObj => rfl

/-- Closed instance of `C5_amended`. -/
theorem C5_witness :
    engNoB.EvaluateJoin evTrue jW ⟨.Added, some objA2⟩ =
      (match joinEvalFn evTrue jW [some objA2, none] with
       | .error e =>
           (engNoB.initViewStore objA2.gvk, .error (NewJoinError (NewExpressionError e)))
       | .ok none => ((engNoB.initViewStore objA2.gvk).storeAdd objA2.gvk objA2, .ok [])
       | .ok (some newObj) =>
           ((engNoB.initViewStore objA2.gvk).storeAdd objA2.gvk objA2,
             .ok [⟨.Added, some newObj⟩])) :=
  C5_amended engNoB evTrue jW objA2 gB (by decide) (by decide) (by decide) (by decide)

def tmpJoinGVK : GVK := ⟨viewGroup, viewVersion, "__tmp_join_view"⟩

/-- Objects emitted by the join all live in the temporary join view and have
an empty namespace. -/
def shapedObj (o : Obj) : Prop := o.gvk = tmpJoinGVK ∧ o.GetNamespace = ""

theorem joinBuildInput_ns (cur : List (Option Obj)) :
    metaStr (joinBuildInput cur) "namespace" = "" := by
  unfold joinBuildInput metaStr
  simp only
  rw [VMap.lookup_setKey_eq]
  simp [VMap.lookup]

theorem joinEvalFn_shape (ev : EvalFn) (j : Join) (cur : List (Option Obj)) (o' : Obj)
    (h : joinEvalFn ev j cur = .ok (some o')) : shapedObj o' := by
  unfold joinEvalFn at h
  simp only at h
  rcases hv : ev j.Expression (joinBuildInput cur) with e | res
  · rw [hv] at h
    simp at h
  · simp only [hv] at h
    rcases hb : AsBool res with e | arg
    · rw [hb] at h
      simp at h
    · rw [hb] at h
      cases arg with
      | false => simp at h
      | true =>
          simp only [Bool.not_true, Bool.false_eq_true, if_false, Except.ok.injEq,
            Option.some.injEq] at h
          subst h
          constructor
          · rfl
          · show (DeepCopy (SetContent (NewViewObject "__tmp_join_view")
                (joinBuildInput cur))).getMeta "namespace" = ""
            unfold DeepCopy
            rw [getMeta_SetContent]
            exact joinBuildInput_ns cur

theorem evalCombos_shape (ev : EvalFn) (j : Join) (cur : List (Option Obj)) :
    ∀ (cs : List (List (Option Obj))) (os : List Obj),
      evalCombos ev j cur cs = .ok os → ∀ o' ∈ os, shapedObj o' := by
  intro cs
  induction cs with
  | nil =>
      intro os h
      unfold evalCombos at h
      simp only [Except.ok.injEq] at h
      subst h
      intro o' ho'
      simp at ho'
  | cons c cs ih =>
      intro os h
      unfold evalCombos at h
      rcases hj : joinEvalFn ev j (cur ++ c) with e | oo
      · rw [hj] at h
        simp at h
      · rw [hj] at h
        cases oo with
        | none => exact ih os h
        | some o1 =>
            rcases hrest : evalCombos ev j cur cs with e | r
            · rw [hrest] at h
              simp at h
            · rw [hrest] at h
              simp only [Except.ok.injEq] at h
              subst h
              intro o' ho'
              rcases List.mem_cons.mp ho' with h1 | h2
              · subst h1
                exact joinEvalFn_shape ev j (cur ++ c) o' hj
              · exact ih r hrest o' h2

theorem evalJoin_shape (eng : Engine) (ev : EvalFn) (j : Join) (o : Obj) (os : List Obj)
    (h : eng.evalJoin ev j o = .ok os) : ∀ o' ∈ os, shapedObj o' := by
  unfold Engine.evalJoin Engine.product at h
  by_cases hlen : eng.baseviews.length < 2
  · rw [if_pos hlen] at h
    simp at h
  · rw [if_neg hlen] at h
    unfold Engine.recurseProd at h
    rcases hec : evalCombos ev j [] (eng.combos o eng.baseviews) with e | r
    · rw [hec] at h
      simp at h
    · rw [hec] at h
      simp only [Except.ok.injEq] at h
      subst h
      exact evalCombos_shape ev j [] _ r hec

def shapedD (d : Delta) : Prop := ∃ o', d.object = some o' ∧ shapedObj o'

theorem joinAdd_shape (eng : Engine) (ev : EvalFn) (j : Join) (o : Obj) (eng' : Engine)
    (ds : List Delta) (h : eng.joinAdd ev j o = (eng', .ok ds)) : ∀ d ∈ ds, shapedD d := by
  unfold Engine.joinAdd at h
  rcases hev : eng.evalJoin ev j o with e | os
  · rw [hev] at h
    simp at h
  · rw [hev] at h
    simp only [Prod.mk.injEq, Except.ok.injEq] at h
    obtain ⟨-, h2⟩ := h
    subst h2
    intro d hd
    rcases List.mem_map.mp hd with ⟨ob, hob, hd2⟩
    exact ⟨ob, by rw [← hd2], evalJoin_shape eng ev j o os hev ob hob⟩

theorem joinDelete_shape (eng : Engine) (ev : EvalFn) (j : Join) (o : Obj) (eng' : Engine)
    (ds : List Delta) (h : eng.joinDelete ev j o = (eng', .ok ds)) : ∀ d ∈ ds, shapedD d := by
  unfold Engine.joinDelete at h
  rcases hlk : eng.lookupObj o.gvk (objectKey o) with _ | old
  · rw [hlk] at h
    simp only [Prod.mk.injEq, Except.ok.injEq] at h
    obtain ⟨-, h2⟩ := h
    subst h2
    intro d hd
    simp at hd
  · simp only [hlk] at h
    rcases hev : eng.evalJoin ev j old with e | os
    · rw [hev] at h
      simp at h
    · rw [hev] at h
      simp only [Prod.mk.injEq, Except.ok.injEq] at h
      obtain ⟨-, h2⟩ := h
      subst h2
      intro d hd
      rcases List.mem_map.mp hd with ⟨ob, hob, hd2⟩
      exact ⟨ob, by rw [← hd2], evalJoin_shape eng ev j old os hev ob hob⟩

theorem evaluateJoinSub_shape (eng : Engine) (ev : EvalFn) (j : Join) (dt : DeltaType)
    (o : Obj) (eng' : Engine) (ds : List Delta)
    (h : eng.evaluateJoinSub ev j ⟨dt, some o⟩ = (eng', .ok ds)) : ∀ d ∈ ds, shapedD d := by
  unfold Engine.evaluateJoinSub at h
  simp only at h
  rcases hcore : (eng.initViewStore o.gvk).isValidEventCore ⟨dt, some o⟩ with ⟨e1, b⟩
  rw [hcore] at h
  cases b with
  | false =>
      simp only [Prod.mk.injEq, Except.ok.injEq] at h
      obtain ⟨-, h2⟩ := h
      subst h2
      intro d hd
      simp at hd
  | true =>
      rcases hD : e1.handleUpsertEvent ⟨dt, some o⟩ with ⟨dt2, dobj2⟩
      simp only [hD] at h
      cases dt2 with
      | Added => exact joinAdd_shape e1 ev j o eng' ds h
      | Deleted => exact joinDelete_shape e1 ev j o eng' ds h
      | Updated =>
          simp only [Prod.mk.injEq, Except.ok.injEq] at h
          obtain ⟨-, h2⟩ := h
          subst h2
          intro d hd
          simp at hd
      | Replaced =>
          simp only [Prod.mk.injEq, Except.ok.injEq] at h
          obtain ⟨-, h2⟩ := h
          subst h2
          intro d hd
          simp at hd
      | Upserted =>
          simp only [Prod.mk.injEq, Except.ok.injEq] at h
          obtain ⟨-, h2⟩ := h
          subst h2
          intro d hd
          simp at hd
      | Unchanged =>
          simp only [Prod.mk.injEq, Except.ok.injEq] at h
          obtain ⟨-, h2⟩ := h
          subst h2
          intro d hd
          simp at hd

/-- Identity-key agreement: same kind, same namespace, same name. -/
def sameIdKey (a b : Obj) : Bool :=
  a.gvk.kind = b.gvk.kind && a.GetNamespace = b.GetNamespace && a.GetName = b.GetName

def matchKeyD (d n : Delta) : Bool :=
  match d.object, n.object with
  | some o1, some o2 => sameIdKey o1 o2
  | _, _ => false

/-- The claim-side consolidation of the Update/Replace halves: deltas present
only in the delete-result are emitted as Deleted, those present in both (by
identity key) as Updated carrying the add-result object, and those present
only in the add-result as Added, in this order. -/
def diffByKey (dels adds : List Delta) : List Delta :=
  ((dels.filter fun d => !(adds.any fun n => matchKeyD d n)).map
      fun d => (⟨.Deleted, d.object⟩ : Delta)) ++
    ((adds.filter fun d => dels.any fun n => matchKeyD d n).map
      fun d => (⟨.Updated, d.object⟩ : Delta)) ++
    ((adds.filter fun d => !(dels.any fun n => matchKeyD d n)).map
      fun d => (⟨.Added, d.object⟩ : Delta))

theorem containsDelta_eq_key (ds : List Delta) (d : Delta) (hd : shapedD d)
    (hds : ∀ n ∈ ds, shapedD n) :
    containsDelta ds d = ds.any fun n => matchKeyD d n := by
  unfold containsDelta
  induction ds with
  | nil => rfl
  | cons n t ih =>
      obtain ⟨o1, ho1, hg1, hns1⟩ := hd
      obtain ⟨o2, ho2, hg2, hns2⟩ := hds n (List.mem_cons_self n t)
      simp only [List.any_cons]
      rw [ih fun x hx => hds x (List.mem_cons_of_mem _ hx)]
      congr 1
      simp [matchKeyD, sameIdKey, ho1, ho2, hg1, hg2, hns1, hns2, tmpJoinGVK]

theorem diffDeltas_ordered (dels adds : List Delta)
    (hdels : ∀ d ∈ dels, shapedD d) (hadds : ∀ d ∈ adds, shapedD d) :
    (diffDeltas dels adds).2.2 ++ (diffDeltas dels adds).2.1 ++ (diffDeltas dels adds).1 =
      diffByKey dels adds := by
  unfold diffDeltas diffByKey
  simp only
  congr 1
  · congr 1
    · refine congrArg _ (List.filter_congr ?_)
      intro x hx
      rw [containsDelta_eq_key adds x (hdels x hx) hadds]
    · refine congrArg _ (List.filter_congr ?_)
      intro x hx
      rw [containsDelta_eq_key dels x (hadds x hx) hdels]
  · refine congrArg _ (List.filter_congr ?_)
    intro x hx
    rw [containsDelta_eq_key dels x (hadds x hx) hdels]

/-- C2: for an Update or Replace input delta passing the validity gate, the
engine evaluates a Delete pass and then an Add pass (each a full pass whose
Delete half works on the previously stored version), diffs the two output
lists by identity key, and emits all Deleted outputs first, then all Updated
outputs (carrying the add-result object), then all Added outputs. -/
theorem C2_update_diff :
    ∀ (eng : Engine) (ev : EvalFn) (j : Join) (o : Obj) (dt : DeltaType)
      (eng1 eng2 : Engine) (dels adds : List Delta),
      (dt = .Updated ∨ dt = .Replaced) →
      (eng.initViewStore o.gvk).isValidEventCore ⟨dt, some o⟩ =
        (eng.initViewStore o.gvk, true) →
      (eng.initViewStore o.gvk).evaluateJoinSub ev j ⟨.Deleted, some o⟩ = (eng1, .ok dels) →
      eng1.evaluateJoinSub ev j ⟨.Added, some o⟩ = (eng2, .ok adds) →
      eng.EvaluateJoin ev j ⟨dt, some o⟩ = (eng2, .ok (diffByKey dels adds)) := by
  intro eng ev j o dt eng1 eng2 dels adds hty hvalid hdel hadd
  have hup : (eng.initViewStore o.gvk).handleUpsertEvent ⟨dt, some o⟩ = ⟨dt, some o⟩ :=
    Engine.handleUpsert_nonUpsert _ _ _ (by rcases hty with h | h <;> subst h <;> simp)
  unfold Engine.EvaluateJoin Engine.evaluateJoin
  simp only [hvalid, hup]
  have hshape1 := evaluateJoinSub_shape _ ev j .Deleted o eng1 dels hdel
  have hshape2 := evaluateJoinSub_shape eng1 ev j .Added o eng2 adds hadd
  rcases hty with h | h <;> subst h <;>
    simp only [hdel, hadd] <;>
    rw [diffDeltas_ordered dels adds hshape1 hshape2]

def updResD : Engine × Except Err (List Delta) :=
  (engA.initViewStore objA2.gvk).evaluateJoinSub evTrue jW ⟨.Deleted, some objA2⟩

def updEng1 : Engine := updResD.1

def updDels : List Delta :=
  match updResD.2 with
  | .ok ds => ds
  | .error _ => []

def updResA : Engine × Except Err (List Delta) :=
  updEng1.evaluateJoinSub evTrue jW ⟨.Added, some objA2⟩

def updEng2 : Engine := updResA.1

def updAdds : List Delta :=
  match updResA.2 with
  | .ok ds => ds
  | .error _ => []

/-- Closed instance of `C2_update_diff`. -/
theorem C2_witness :
    engA.EvaluateJoin evTrue jW ⟨.Updated, some objA2⟩ =
      (updEng2, .ok (diffByKey updDels updAdds)) :=
  C2_update_diff engA evTrue jW objA2 .Updated updEng1 updEng2 updDels updAdds
    (Or.inl rfl) (by decide) (by decide) (by decide)

/-- Closed instance of `C9_path_setter`. -/
theorem C9_witness :
    SExpr.Evaluate VMap.nil (.dict (.cons "$.y[3]" (.intLit 12) .nil)) =
      .ok (.map (.cons "y"
        (.list (.cons .null (.cons .null (.cons .null (.cons (.int 12) .nil)))))
        .nil)) :=
  C9_path_setter VMap.nil
